import Mathlib

/-!
# STAR interview flashcards: tab navigation and practice session

A shallow embedding of `src/scripts/tabs.js`, `src/scripts/practice.js` and the
`debounce` helper of `src/scripts/app.js`, with the properties of the
specification stated and proved over it.

* The page is the list of its elements in document order.  Scripts run to
  completion one at a time, so every handler is a function from the state
  before to the state after; a handler that can raise returns an `Except`.
* JavaScript strings are Lean strings.  `JSON.parse`, `JSON.stringify` and the
  selector engine's reading of a malformed selector are parameters
  (`Platform`).  The fragment of the address is what `location.hash` reads back
  after the URL parser has encoded it (`urlFragment`).
* The numbers of the scripts are whole numbers, held as integers: exact within
  `maxSafeInteger`, the range the statements on the timer are made for.
* Timers are handles in a schedule: a tick is one firing of the repeating
  timer, and a timeout runs at the millisecond it is due.
* Left out: the character counter and the saved indicator next to a textarea
  (`updateCharCount`, `showSavedIndicator`; the debounced listener raises before
  it reaches them, see `inputListener`), `exportAnswer`, the flip cards and the
  theme.
-/

namespace StarFlashcards

/-! ## The page -/

/-- One element of the page, with the attributes the scripts read or write.
`styleWidth` is the percentage written to `style.width` (the decimal rendering
of the JavaScript number is not modelled), `parent` is the position of
`parentElement` in the document. -/
structure Elem where
  id : String
  classes : List String
  ariaSelected : Option String
  disabled : Bool
  innerHTML : String
  styleWidth : Option ℚ
  ariaValueNow : Option Int
  parent : Option Nat
  deriving DecidableEq

/-- `classList.contains`. -/
def Elem.hasClass (e : Elem) (c : String) : Bool :=
  e.classes.contains c

/-- `classList.add`: a token already present is not added again. -/
def Elem.addClass (c : String) (e : Elem) : Elem :=
  if e.classes.contains c then e else { e with classes := e.classes ++ [c] }

/-- `classList.remove`. -/
def Elem.removeClass (c : String) (e : Elem) : Elem :=
  { e with classes := e.classes.filter (fun x => x != c) }

/-- Apply `f` to the element at position `i`, if there is one. -/
def modifyAt {α : Type} (f : α → α) : Nat → List α → List α
  | _, [] => []
  | 0, x :: xs => f x :: xs
  | i + 1, x :: xs => x :: modifyAt f i xs

/-- Position of the first element satisfying `p`. -/
def firstIdx {α : Type} (p : α → Bool) : List α → Option Nat
  | [] => none
  | x :: xs => if p x then some 0 else (firstIdx p xs).map (fun i => i + 1)

/-- `document.getElementById`: the first element in document order carrying the
id; the empty string never matches. -/
def getElementById (doc : List Elem) (name : String) : Option Nat :=
  if name = "" then none else firstIdx (fun e => e.id == name) doc

/-! ## tabs.js -/

/-- The fixed order of the sections. -/
def tabOrder : List String :=
  ["basics", "components", "questions", "tips", "examples", "practice"]

/-- `Array.prototype.indexOf` counted from position `i`: `-1` when absent. -/
def indexOfFrom (x : String) : List String → Nat → Int
  | [], _ => -1
  | y :: ys, i => if y = x then (i : Int) else indexOfFrom x ys (i + 1)

/-- `list.indexOf(x)`. -/
def indexOf (l : List String) (x : String) : Int :=
  indexOfFrom x l 0

/-- C0 control or space: U+0000 to U+0020. -/
def isC0OrSpace (c : Char) : Bool :=
  c.toNat ≤ 32

/-- ASCII tab or newline: U+0009, U+000A, U+000D. -/
def isTabOrNewline (c : Char) : Bool :=
  c.toNat = 9 || c.toNat = 10 || c.toNat = 13

/-- The URL parser drops the C0 controls and spaces that end its input. -/
def stripTrailing : List Char → List Char
  | [] => []
  | c :: cs =>
    match stripTrailing cs with
    | [] => if isC0OrSpace c then [] else [c]
    | r => c :: r

/-- The fragment percent-encode set: the C0 controls, everything above U+007E,
space, double quote, `<`, `>` and the grave accent. -/
def inFragmentEncodeSet (c : Char) : Bool :=
  c.toNat ≤ 31 || 126 < c.toNat || c.toNat = 32 || c.toNat = 34 || c.toNat = 60 ||
    c.toNat = 62 || c.toNat = 96

/-- The bytes of the UTF-8 encoding of a code point. -/
def utf8Bytes (v : Nat) : List Nat :=
  if v < 128 then [v]
  else if v < 2048 then [192 + v / 64, 128 + v % 64]
  else if v < 65536 then [224 + v / 4096, 128 + v / 64 % 64, 128 + v % 64]
  else [240 + v / 262144, 128 + v / 4096 % 64, 128 + v / 64 % 64, 128 + v % 64]

/-- An upper-case hexadecimal digit. -/
def hexDigit (n : Nat) : Char :=
  if n < 10 then Char.ofNat (48 + n) else Char.ofNat (55 + n)

/-- A percent-encoded byte. -/
def percentByte (b : Nat) : List Char :=
  [Char.ofNat 37, hexDigit (b / 16), hexDigit (b % 16)]

/-- What the fragment state of the URL parser appends for one code point. -/
def encodeFragmentChar (c : Char) : List Char :=
  if inFragmentEncodeSet c then (utf8Bytes c.toNat).flatMap percentByte else [c]

/-- The fragment the page address has after `history.replaceState(null, null, '#' + t)`,
as `location.hash.slice(1)` reads it back: the URL parser strips the controls and
spaces that end the input, removes tabs and newlines, and percent-encodes the
rest of what follows the `#`.  Names made of letters, digits, `-` and `_` pass
unchanged. -/
def urlFragment (t : String) : String :=
  String.mk (((stripTrailing t.data).filter (fun c => !isTabOrNewline c)).flatMap encodeFragmentChar)

/-- An ASCII letter or digit, `-` or `_`. -/
def isPlainChar (c : Char) : Bool :=
  (48 ≤ c.toNat && c.toNat ≤ 57) || (65 ≤ c.toNat && c.toNat ≤ 90) ||
    (97 ≤ c.toNat && c.toNat ≤ 122) || c.toNat = 45 || c.toNat = 95

/-- A name made of ASCII letters, digits, `-` and `_`. -/
def plainName (t : String) : Bool :=
  t.data.all isPlainChar

/-- The state the tab scripts work on: the module variable `currentTabIndex`,
the page, the fragment of the address bar (without its `#`, as `location.hash`
reports it) and the vertical scroll position. -/
structure TabState where
  currentTabIndex : Int
  doc : List Elem
  fragment : String
  scrollTop : Nat
  deriving DecidableEq

/-- `updateProgressBar`. -/
def updateProgressBar (s : TabState) : TabState :=
  match getElementById s.doc "progressBar" with
  | none => s
  | some b =>
    let progress : ℚ := ((s.currentTabIndex + 1 : Int) : ℚ) / (tabOrder.length : ℚ) * 100
    let doc1 := modifyAt (fun e => { e with styleWidth := some progress }) b s.doc
    match (doc1.get? b).bind (fun e => e.parent) with
    | none => { s with doc := doc1 }
    | some c =>
      { s with doc := modifyAt (fun e => { e with ariaValueNow := some (s.currentTabIndex + 1) }) c doc1 }

/-- Markup of the next button on the last section. -/
def completeLabel : String :=
  "<i class=\"fas fa-check\"></i> <span>Complete!</span>"

/-- Markup of the next button elsewhere. -/
def nextLabel : String :=
  "<span>Next</span> <i class=\"fas fa-arrow-right\"></i>"

/-- `updateNavButtons`. -/
def updateNavButtons (s : TabState) : TabState :=
  let prevBtn := getElementById s.doc "prevBtn"
  let nextBtn := getElementById s.doc "nextBtn"
  let doc1 :=
    match prevBtn with
    | none => s.doc
    | some p =>
      modifyAt (fun e =>
        let e1 := { e with disabled := decide (s.currentTabIndex = 0) }
        if s.currentTabIndex = 0 then e1.addClass "hidden" else e1.removeClass "hidden") p s.doc
  let doc2 :=
    match nextBtn with
    | none => doc1
    | some n =>
      modifyAt (fun e =>
        let e1 := { e with disabled := decide (s.currentTabIndex = (tabOrder.length : Int) - 1) }
        if s.currentTabIndex = (tabOrder.length : Int) - 1 then
          { e1 with innerHTML := completeLabel, disabled := true }
        else
          { e1 with innerHTML := nextLabel }) n doc1
  { s with doc := doc2 }

/-- Body of the first loop of `openTab`, for an element of class `tab-content`:
`classList.remove("active")`. -/
def hideSection (e : Elem) : Elem :=
  if e.hasClass "tab-content" then e.removeClass "active" else e

/-- Body of the second loop of `openTab`, for an element of class `tab-button`:
`classList.remove("active")` and `aria-selected = "false"`. -/
def deselectButton (e : Elem) : Elem :=
  if e.hasClass "tab-button" then { e.removeClass "active" with ariaSelected := some "false" } else e

/-- What `openTab` does to the tab button it selects: `classList.add("active")` and
`aria-selected = "true"`. -/
def selectButton (e : Elem) : Elem :=
  { e.addClass "active" with ariaSelected := some "true" }

/-- `openTab(evt, tabName)`.  `evt` is the position of `evt.currentTarget` in the
document, `none` when `evt` or its `currentTarget` is null.  The last two
statements are `history.replaceState(null, null, '#' + tabName)` and
`window.scrollTo`. -/
def openTab (evt : Option Nat) (tabName : String) (s : TabState) : TabState :=
  let idx := indexOf tabOrder tabName
  let doc1 := s.doc.map hideSection
  let doc2 := doc1.map deselectButton
  let doc3 :=
    match getElementById doc2 tabName with
    | some t => modifyAt (Elem.addClass "active") t doc2
    | none => doc2
  let doc4 :=
    match evt with
    | some c => modifyAt selectButton c doc3
    | none =>
      match getElementById doc3 ("tab-" ++ tabName) with
      | some b => modifyAt selectButton b doc3
      | none => doc3
  let s1 := updateProgressBar { s with currentTabIndex := idx, doc := doc4 }
  let s2 := updateNavButtons s1
  { s2 with fragment := urlFragment tabName, scrollTop := 0 }

/-- `navigateTabs(direction)`. -/
def navigateTabs (direction : Int) (s : TabState) : TabState :=
  let newIndex := s.currentTabIndex + direction
  if 0 ≤ newIndex ∧ newIndex < (tabOrder.length : Int) then
    match tabOrder.get? newIndex.toNat with
    | some tabName => openTab none tabName s
    | none => s
  else s

/-- `initTabFromHash`: `location.hash.slice(1)` is the fragment. -/
def initTabFromHash (s : TabState) : TabState :=
  let hash := s.fragment
  if hash ≠ "" ∧ tabOrder.contains hash then openTab none hash s else s

/-- Whether the element is a section content element marked active. -/
def isActiveSection (e : Elem) : Bool :=
  e.hasClass "tab-content" && e.hasClass "active"

/-- The section content elements currently marked active. -/
def activeSections (s : TabState) : List Elem :=
  s.doc.filter isActiveSection

/-- The ids of the section content elements of a document that are marked active. -/
def secIds (l : List Elem) : List String :=
  (l.filter isActiveSection).map (fun e => e.id)

/-- A plain element with the given id and classes. -/
def mkElem (id : String) (classes : List String) : Elem :=
  { id := id, classes := classes, ariaSelected := none, disabled := false,
    innerHTML := "", styleWidth := none, ariaValueNow := none, parent := none }

/-- A page with the six sections, their tab buttons, the progress bar inside
its container and the two navigation buttons, as on first load. -/
def samplePage : TabState :=
  { currentTabIndex := 0
    doc :=
      [ mkElem "progressContainer" [],
        { mkElem "progressBar" [] with parent := some 0 },
        { mkElem "tab-basics" ["tab-button", "active"] with ariaSelected := some "true" },
        mkElem "tab-components" ["tab-button"],
        mkElem "tab-questions" ["tab-button"],
        mkElem "tab-tips" ["tab-button"],
        mkElem "tab-examples" ["tab-button"],
        mkElem "tab-practice" ["tab-button"],
        mkElem "basics" ["tab-content", "active"],
        mkElem "components" ["tab-content"],
        mkElem "questions" ["tab-content"],
        mkElem "tips" ["tab-content"],
        mkElem "examples" ["tab-content"],
        mkElem "practice" ["tab-content"],
        { mkElem "prevBtn" ["nav-btn", "hidden"] with disabled := true },
        { mkElem "nextBtn" ["nav-btn"] with innerHTML := nextLabel } ]
    fragment := "basics"
    scrollTop := 0 }

/-- Apply `f` to the first element satisfying `p`. -/
def modifyFirst {α : Type} (p : α → Bool) (f : α → α) : List α → List α
  | [] => []
  | x :: xs => if p x then f x :: xs else x :: modifyFirst p f xs

/-! ## practice.js: drafts -/

/-- A value `JSON.parse` can return.  A number is carried by its `ToString`
rendering, an object by its own properties in enumeration order. -/
inductive JsVal where
  | null
  | bool (b : Bool)
  | num (shown : String)
  | str (s : String)
  | arr (items : List JsVal)
  | obj (props : List (String × JsVal))

/-- The exceptions the practice scripts can meet. -/
inductive JsError where
  | syntaxError
  | typeError
  deriving DecidableEq

/-- A textarea of the page: whether it lies inside `#practice`, its
`data-question` and `data-section` attributes (`none`: attribute absent) and its
value.  Texts are the values the control reports, with line breaks already
normalised; assigning such a text stores it unchanged. -/
structure Field where
  inPractice : Bool
  question : Option String
  sectionId : Option String
  value : String
  deriving DecidableEq

/-- The built-ins of the browser, taken as parameters: `JSON.parse` (`none`: it
throws a SyntaxError), `JSON.stringify`, and what the selector engine makes of
the selector texts of `loadDrafts` and `clearDraft` when an id placed between
the double quotes is not `cssSafe`: an exception, or the position of the
textarea found, respectively the positions selected. -/
structure Platform where
  parse : String → Option JsVal
  stringify : JsVal → String
  brokenQuery : String → String → List Field → Except JsError (Option Nat)
  brokenQueryAll : String → List Field → Except JsError (Nat → Bool)

/-- The state the draft functions work on: the textareas in document order,
`localStorage`, the calls of `localStorage.setItem` made so far (key and value,
in order), the string properties earlier saves have written on
`Object.prototype` (see `saveField`), the messages passed to `console.error`,
the toasts shown, and whether `showToast` is defined (app.js loaded). -/
structure PracticeState where
  fields : List Field
  localStorage : List (String × String)
  storageWrites : List (String × String)
  protoExtra : List (String × String)
  consoleErrors : List String
  toasts : List (String × String)
  hasShowToast : Bool
  deriving DecidableEq

/-- The storage key of the drafts. -/
def STORAGE_KEY : String := "star-practice-drafts"

/-- Own property lookup; also `localStorage.getItem`. -/
def getOwn {α : Type} (k : String) : List (String × α) → Option α
  | [] => none
  | (k1, v) :: rest => if k1 = k then some v else getOwn k rest

/-- Value of a decimal digit. -/
def digitVal (c : Char) : Option Nat :=
  if 48 ≤ c.toNat ∧ c.toNat ≤ 57 then some (c.toNat - 48) else none

/-- Value of a string of decimal digits. -/
def digitsVal : List Char → Nat → Option Nat
  | [], acc => some acc
  | c :: cs, acc =>
    match digitVal c with
    | some d => digitsVal cs (acc * 10 + d)
    | none => none

/-- Whether a property key is an array index: a canonical decimal numeral below
`2^32 - 1`.  Objects enumerate such keys first, in ascending order, and the
other keys after them in creation order. -/
def arrayIndex (k : String) : Option Nat :=
  match k.data with
  | [] => none
  | [c] => digitVal c
  | c :: cs =>
    if c = '0' then none
    else
      match digitsVal (c :: cs) 0 with
      | some n => if n < 4294967295 then some n else none
      | none => none

/-- Create the property `k` at its place in the enumeration order. -/
def insertProp {α : Type} (k : String) (v : α) : List (String × α) → List (String × α)
  | [] => [(k, v)]
  | (k1, v1) :: rest =>
    match arrayIndex k, arrayIndex k1 with
    | some n, some n1 =>
      if n < n1 then (k, v) :: (k1, v1) :: rest else (k1, v1) :: insertProp k v rest
    | some _, none => (k, v) :: (k1, v1) :: rest
    | none, _ => (k1, v1) :: insertProp k v rest

/-- Assignment `o[k] = v` to an own property: an existing property keeps its
place, a new one is created. -/
def setProp {α : Type} (k : String) (v : α) (l : List (String × α)) : List (String × α) :=
  match getOwn k l with
  | some _ => l.map (fun p => if p.1 = k then (k, v) else p)
  | none => insertProp k v l

/-- `localStorage.setItem`. -/
def setItem (k v : String) (st : List (String × String)) : List (String × String) :=
  match getOwn k st with
  | some _ => st.map (fun p => if p.1 = k then (k, v) else p)
  | none => st ++ [(k, v)]

/-- The drafts object `saveDrafts` builds: question id to section id to text. -/
abbrev Drafts := List (String × List (String × String))

/-- The drafts object as a JavaScript value. -/
def draftsToJs (d : Drafts) : JsVal :=
  .obj (d.map (fun p => (p.1, JsVal.obj (p.2.map (fun e => (e.1, JsVal.str e.2))))))

/-- The property names every object inherits from `Object.prototype`. -/
def objectPrototypeNames : List String :=
  ["constructor", "__defineGetter__", "__defineSetter__", "hasOwnProperty",
   "__lookupGetter__", "__lookupSetter__", "isPrototypeOf", "propertyIsEnumerable",
   "toString", "valueOf", "__proto__", "toLocaleString"]

/-- `drafts[questionId][section] = value` on an object literal: the key
`__proto__` reaches the inherited setter, which ignores a string. -/
def assignSection (sec value : String) (inner : List (String × String)) :
    List (String × String) :=
  if sec = "__proto__" then inner else setProp sec value inner

/-- Body of the loop of `saveDrafts` for one textarea, on the pair of the
drafts object and the string properties written on `Object.prototype`.

`drafts[questionId]` is an own property or falls through to `Object.prototype`.
A string found there (written by an earlier save through the id `__proto__`) is
truthy unless empty and silently ignores the assignment of a property.  A
built-in member is truthy and no own property is created: for `__proto__` it is
`Object.prototype` itself, on which the assignment creates a string property;
for the others it is a built-in function, and the model does not follow the
assignment into that function (it is observable for the section ids `caller`
and `arguments`, which raise, and for `keys` under `constructor`, which
replaces `Object.keys`).  The theorems on `saveDrafts` are stated for question
ids that are own names, see `ownName`. -/
def saveField (acc : Drafts × List (String × String)) (f : Field) :
    Drafts × List (String × String) :=
  let questionId := f.question.getD ""
  let sec := f.sectionId.getD "null"
  match getOwn questionId acc.1 with
  | some inner => (setProp questionId (assignSection sec f.value inner) acc.1, acc.2)
  | none =>
    match getOwn questionId acc.2 with
    | some txt =>
      if txt = "" then (setProp questionId (assignSection sec f.value []) acc.1, acc.2)
      else acc
    | none =>
      if questionId = "__proto__" then
        (acc.1, if sec = "__proto__" then acc.2 else setProp sec f.value acc.2)
      else if objectPrototypeNames.contains questionId then acc
      else (setProp questionId (assignSection sec f.value []) acc.1, acc.2)

/-- The textareas `#practice textarea[data-question]` selects. -/
def practiceFields (fields : List Field) : List Field :=
  fields.filter (fun f => f.inPractice && f.question.isSome)

/-- The drafts object the loop of `saveDrafts` builds from the page. -/
def builtDrafts (s : PracticeState) : Drafts :=
  ((practiceFields s.fields).foldl saveField ([], s.protoExtra)).1

/-- `saveDrafts`. -/
def saveDrafts (P : Platform) (s : PracticeState) : PracticeState :=
  { s with
    localStorage := setItem STORAGE_KEY (P.stringify (draftsToJs (builtDrafts s))) s.localStorage
    storageWrites := s.storageWrites ++ [(STORAGE_KEY, P.stringify (draftsToJs (builtDrafts s)))]
    protoExtra := ((practiceFields s.fields).foldl saveField ([], s.protoExtra)).2 }

/-- Code points that end or break a double-quoted CSS string: NUL, line feed,
form feed, carriage return, the double quote and the backslash. -/
def cssSpecial : List Nat := [0, 10, 12, 13, 34, 92]

/-- Whether a string can be placed between double quotes in a selector as it
is, the way the template strings of `loadDrafts` and `clearDraft` place ids. -/
def cssSafe (s : String) : Bool :=
  s.data.all (fun c => !(cssSpecial.contains c.toNat))

/-- Whether a textarea carries the two ids as `data-question` and `data-section`. -/
def matchIds (questionId sec : String) (f : Field) : Bool :=
  f.question == some questionId && f.sectionId == some sec

/-- The assignment `textarea.value = text`. -/
def Field.setValue (text : String) (f : Field) : Field :=
  { f with value := text }

/-- `document.querySelector` on
`textarea[data-question="questionId"][data-section="section"]`: the first
textarea with both attributes equal to the ids, when both ids are `cssSafe`. -/
def queryDraftField (P : Platform) (fields : List Field) (questionId sec : String) :
    Except JsError (Option Nat) :=
  if cssSafe questionId && cssSafe sec then
    .ok (firstIdx (matchIds questionId sec) fields)
  else P.brokenQuery questionId sec fields

/-- `Object.keys(v)`, `none` for the TypeError on `null`.  A string lists the
indices of its characters (a character outside the Basic Multilingual Plane,
two code units in JavaScript, counts as one here). -/
def ownKeys : JsVal → Option (List String)
  | .null => none
  | .bool _ => some []
  | .num _ => some []
  | .str s => some ((List.range s.length).map toString)
  | .arr items => some ((List.range items.length).map toString)
  | .obj props => some (props.map (fun p => p.1))

/-- `v[k]` for a key `Object.keys(v)` lists; `none` is `undefined`. -/
def getProp (v : JsVal) (k : String) : Option JsVal :=
  match v with
  | .str s =>
    match arrayIndex k with
    | some i => (s.data.get? i).map (fun c => JsVal.str (String.singleton c))
    | none => none
  | .arr items =>
    match arrayIndex k with
    | some i => items.get? i
    | none => none
  | .obj props => getOwn k props
  | _ => none

mutual
/-- `ToString(v)` as the `value` setter of a textarea applies it (`null` gives
the empty string), `none` for a TypeError.  A plain object gives
`[object Object]` through the inherited `toString`; when that name is an own
property or was overwritten on the prototype (`extra`), nothing callable is left
that returns a primitive. -/
def toStr (extra : List (String × String)) : JsVal → Option String
  | .null => some ""
  | .bool b => some (if b then "true" else "false")
  | .num shown => some shown
  | .str s => some s
  | .arr items => joinStr extra items
  | .obj props =>
    if (getOwn "toString" props).isSome || (getOwn "toString" extra).isSome then none
    else some "[object Object]"
/-- `Array.prototype.join` with the default separator. -/
def joinStr (extra : List (String × String)) : List JsVal → Option String
  | [] => some ""
  | [x] => toStr extra x
  | x :: y :: rest =>
    match toStr extra x, joinStr extra (y :: rest) with
    | some a, some b => some (a ++ "," ++ b)
    | _, _ => none
end

/-- Inner `forEach` of `loadDrafts` over the section keys of one question: the
fields reached and the exception that ended the loop, if any. -/
def loadSections (P : Platform) (extra : List (String × String)) (questionId : String)
    (inner : JsVal) : List String → List Field → List Field × Option JsError
  | [], fields => (fields, none)
  | sec :: rest, fields =>
    match queryDraftField P fields questionId sec with
    | .error e => (fields, some e)
    | .ok none => loadSections P extra questionId inner rest fields
    | .ok (some i) =>
      match (getProp inner sec) with
      | none =>
        loadSections P extra questionId inner rest
          (modifyAt (Field.setValue "undefined") i fields)
      | some v =>
        match toStr extra v with
        | none => (fields, some .typeError)
        | some txt =>
          loadSections P extra questionId inner rest
            (modifyAt (Field.setValue txt) i fields)

/-- Outer `forEach` of `loadDrafts` over the question keys; `Object.keys` of an
`undefined` or `null` entry is a TypeError. -/
def loadQuestions (P : Platform) (extra : List (String × String)) (drafts : JsVal) :
    List String → List Field → List Field × Option JsError
  | [], fields => (fields, none)
  | questionId :: rest, fields =>
    match (getProp drafts questionId).bind ownKeys, getProp drafts questionId with
    | some secs, some inner =>
      match loadSections P extra questionId inner secs fields with
      | (fields1, some e) => (fields1, some e)
      | (fields1, none) => loadQuestions P extra drafts rest fields1
    | _, _ => (fields, some .typeError)

/-- The `try` block of `loadDrafts` on the stored string: the fields reached and
the exception thrown, if any. -/
def loadDraftsTry (P : Platform) (extra : List (String × String)) (savedDrafts : String)
    (fields : List Field) : List Field × Option JsError :=
  match P.parse savedDrafts with
  | none => (fields, some .syntaxError)
  | some drafts =>
    match ownKeys drafts with
    | none => (fields, some .typeError)
    | some keys => loadQuestions P extra drafts keys fields

/-- `loadDrafts`: an absent or empty stored string is skipped, an exception of
the `try` block is caught and logged.  The result is `.ok`: nothing propagates
to the caller. -/
def loadDrafts (P : Platform) (s : PracticeState) : Except JsError PracticeState :=
  match getOwn STORAGE_KEY s.localStorage with
  | none => .ok s
  | some savedDrafts =>
    if savedDrafts = "" then .ok s
    else
      match loadDraftsTry P s.protoExtra savedDrafts s.fields with
      | (fields1, none) => .ok { s with fields := fields1 }
      | (fields1, some _) =>
        .ok { s with fields := fields1,
                     consoleErrors := s.consoleErrors ++ ["Error loading drafts:"] }

/-- `delete v[k]`, `none` for the TypeError on `null`.  An array element that is
deleted leaves a hole, which `JSON.stringify` writes as `null`. -/
def deleteProp (v : JsVal) (k : String) : Option JsVal :=
  match v with
  | .null => none
  | .obj props => some (.obj (props.filter (fun p => p.1 != k)))
  | .arr items =>
    match arrayIndex k with
    | some i => if i < items.length then some (.arr (items.set i .null)) else some (.arr items)
    | none => some (.arr items)
  | v => some v

/-- Empty the value of the textareas at the selected positions, counted from `k`. -/
def clearSelected (sel : Nat → Bool) : Nat → List Field → List Field
  | _, [] => []
  | k, f :: rest =>
    (if sel k then f.setValue "" else f) :: clearSelected sel (k + 1) rest

/-- The first loop of `clearDraft`: `querySelectorAll` on
`textarea[data-question="questionId"]` selects the textareas with that attribute
when the id is `cssSafe`; each gets the empty value.  The selector is built
outside the `try` block: an exception reaches the caller. -/
def clearFields (P : Platform) (questionId : String) (fields : List Field) :
    Except JsError (List Field) :=
  if cssSafe questionId then
    .ok (fields.map (fun f => if f.question == some questionId then f.setValue "" else f))
  else
    match P.brokenQueryAll questionId fields with
    | .error e => .error e
    | .ok sel => .ok (clearSelected sel 0 fields)

/-- `clearDraft(questionId)`. -/
def clearDraft (P : Platform) (questionId : String) (s : PracticeState) :
    Except JsError PracticeState :=
  match clearFields P questionId s.fields with
  | .error e => .error e
  | .ok fields1 =>
    let s1 : PracticeState :=
      match getOwn STORAGE_KEY s.localStorage with
      | none => { s with fields := fields1 }
      | some savedDrafts =>
        if savedDrafts = "" then { s with fields := fields1 }
        else
          match (P.parse savedDrafts).bind (fun drafts => deleteProp drafts questionId) with
          | some drafts1 =>
            { s with fields := fields1,
                     localStorage := setItem STORAGE_KEY (P.stringify drafts1) s.localStorage,
                     storageWrites := s.storageWrites ++ [(STORAGE_KEY, P.stringify drafts1)] }
          | none =>
            { s with fields := fields1,
                     consoleErrors := s.consoleErrors ++ ["Error clearing draft:"] }
    .ok (if s1.hasShowToast then { s1 with toasts := s1.toasts ++ [("Draft cleared", "info")] }
      else s1)

/-- The draft store as persisted: the stored string, parsed. -/
def persisted (P : Platform) (s : PracticeState) : Option JsVal :=
  (getOwn STORAGE_KEY s.localStorage).bind P.parse

/-- The text a drafts object holds for a question id and a section id. -/
def draftText (d : Drafts) (questionId sec : String) : Option String :=
  (getOwn questionId d).bind (getOwn sec)

/-- The store entry a textarea is saved under: its `data-question` and its
`data-section`, an absent `data-section` giving the key `null`. -/
def draftKey (f : Field) : String × String :=
  (f.question.getD "", f.sectionId.getD "null")

/-- Whether a question id names an own property of a fresh object literal: it is
inherited neither from the built-in `Object.prototype` nor from what earlier
saves wrote there. -/
def ownName (extra : List (String × String)) (questionId : String) : Bool :=
  !(objectPrototypeNames.contains questionId) && (getOwn questionId extra).isNone

/-- JSON quoting of one character (`QuoteJSONString`). -/
def quoteChar (c : Char) : String :=
  if c.toNat = 34 then "\\\"" else
  if c.toNat = 92 then "\\\\" else
  if c.toNat = 8 then "\\b" else
  if c.toNat = 9 then "\\t" else
  if c.toNat = 10 then "\\n" else
  if c.toNat = 12 then "\\f" else
  if c.toNat = 13 then "\\r" else
  if c.toNat < 16 then "\\u000" ++ String.singleton (Nat.digitChar c.toNat) else
  if c.toNat < 32 then "\\u001" ++ String.singleton (Nat.digitChar (c.toNat - 16)) else
  String.singleton c

/-- JSON quoting of a string. -/
def quoteJson (s : String) : String :=
  "\"" ++ String.join (s.data.map quoteChar) ++ "\""

/-- Join strings with commas. -/
def commaJoin : List String → String
  | [] => ""
  | [x] => x
  | x :: y :: rest => x ++ "," ++ commaJoin (y :: rest)

/-- `JSON.stringify` of a drafts object. -/
def stringifyDrafts (d : Drafts) : String :=
  "\x7b" ++ commaJoin (d.map (fun p =>
    quoteJson p.1 ++ ":\x7b" ++
      commaJoin (p.2.map (fun e => quoteJson e.1 ++ ":" ++ quoteJson e.2)) ++ "\x7d")) ++ "\x7d"

/-- The section object a value is, if it is one. -/
def jsToSections : List (String × JsVal) → Option (List (String × String))
  | [] => some []
  | (k, .str t) :: rest => (jsToSections rest).map (fun l => (k, t) :: l)
  | _ :: _ => none

/-- The drafts object a list of properties is, if it is one. -/
def jsToQuestions : List (String × JsVal) → Option Drafts
  | [] => some []
  | (k, .obj inner) :: rest =>
    match jsToSections inner, jsToQuestions rest with
    | some l, some d => some ((k, l) :: d)
    | _, _ => none
  | _ :: _ => none

/-- The drafts object a value is, if it is one. -/
def jsToDrafts : JsVal → Option Drafts
  | .obj props => jsToQuestions props
  | _ => none

/-- The text the persisted draft store holds for a question id and a section id. -/
def storedText (P : Platform) (s : PracticeState) (questionId sec : String) : Option String :=
  ((persisted P s).bind jsToDrafts).bind (fun d => draftText d questionId sec)

/-- The drafts objects the examples store. -/
def sampleStores : List Drafts :=
  [ [],
    [("q1", [("situation", "Led the migration"), ("task", "Cut the downtime")])],
    [("q1", [("situation", "Led the migration")])],
    [("q2", [("result", "Shipped on time")])],
    [("q1", [("situation", "Led the migration")]), ("q2", [("result", "Shipped on time")])],
    [("a\"b", [("situation", "Led the migration")])] ]

/-- A platform for the examples: `JSON.stringify` on drafts objects, `JSON.parse`
tabulated on the strings the examples store (any other string is taken as
malformed), and a selector engine that rejects a malformed selector. -/
def samplePlatform : Platform :=
  { stringify := fun v => ((jsToDrafts v).map stringifyDrafts).getD "null"
    parse := fun str => (sampleStores.find? (fun d => stringifyDrafts d == str)).map draftsToJs
    brokenQuery := fun _ _ _ => .error .syntaxError
    brokenQueryAll := fun _ _ => .error .syntaxError }

/-- A practice textarea with the given ids and text. -/
def mkField (questionId sec text : String) : Field :=
  { inPractice := true, question := some questionId, sectionId := some sec, value := text }

/-- A session with the given textareas and stored drafts string, app.js loaded. -/
def mkSession (fields : List Field) (stored : Option String) : PracticeState :=
  { fields := fields
    localStorage := match stored with
      | some str => [("theme", "dark"), (STORAGE_KEY, str)]
      | none => [("theme", "dark")]
    storageWrites := []
    protoExtra := []
    consoleErrors := []
    toasts := []
    hasShowToast := true }

/-- What `saveField` does to the drafts object for a textarea whose question id is
an own name: the section is assigned in the object of the question, created
when absent. -/
def plainSave (d : Drafts) (f : Field) : Drafts :=
  setProp (draftKey f).1
    (assignSection (draftKey f).2 f.value ((getOwn (draftKey f).1 d).getD [])) d

/-- What the inner loop of `loadDrafts` does for string entries with `cssSafe`
ids: each section key sets the first textarea carrying the two ids. -/
def fillSections (questionId : String) (inner : List (String × String))
    (secs : List String) (fields : List Field) : List Field :=
  secs.foldl (fun acc sec =>
    modifyFirst (matchIds questionId sec) (Field.setValue ((getOwn sec inner).getD "")) acc) fields

/-- What the outer loop of `loadDrafts` does for a drafts object with `cssSafe` ids. -/
def fillQuestions (d : Drafts) (keys : List String) (fields : List Field) : List Field :=
  keys.foldl (fun acc questionId =>
    fillSections questionId ((getOwn questionId d).getD [])
      (((getOwn questionId d).getD []).map (fun e => e.1)) acc) fields

/-- Whether every id of a drafts object is `cssSafe`. -/
def safeStore (d : Drafts) : Bool :=
  d.all (fun p => cssSafe p.1 && p.2.all (fun e => cssSafe e.1))

/-- A session whose view holds one field, for question `q1`, while the stored
drafts hold an entry for question `q2`, whose field is not in the view. -/
def otherViewSession : PracticeState :=
  mkSession [mkField "q1" "situation" "Led the migration"]
    (some (stringifyDrafts [("q2", [("result", "Shipped on time")])]))

/-- A session whose only field carries a question id with a double quote. -/
def quotedIdSession : PracticeState :=
  mkSession [mkField "a\"b" "situation" "Led the migration"] none

/-- A session whose only field carries the question id `constructor`. -/
def inheritedIdSession : PracticeState :=
  mkSession [mkField "constructor" "situation" "Led the migration"] none

/-- A session with two fields of question `q1`, both filled in. -/
def filledSession : PracticeState :=
  mkSession [mkField "q1" "situation" "Led the migration", mkField "q1" "task" "Cut the downtime"]
    none

/-- A fresh session on the same page as `s`, its fields empty, with the drafts
string `s` has stored. -/
def freshSession (s : PracticeState) : PracticeState :=
  mkSession (s.fields.map (Field.setValue "")) (getOwn STORAGE_KEY s.localStorage)

/-- The texts of the fields after a call, `none` when the call raised. -/
def textsAfter (r : Except JsError PracticeState) : Option (List String) :=
  match r with
  | .ok s => some (s.fields.map (fun f => f.value))
  | .error _ => none

/-- A session with the fields of questions `q1` and `q2` filled in and both
questions stored. -/
def twoQuestionSession : PracticeState :=
  mkSession [mkField "q1" "situation" "Led the migration", mkField "q2" "result" "Shipped on time"]
    (some (stringifyDrafts
      [("q1", [("situation", "Led the migration")]), ("q2", [("result", "Shipped on time")])]))

/-- A session whose stored string is not JSON. -/
def malformedSession : PracticeState :=
  mkSession [mkField "q1" "situation" "typed before loading"] (some "not json")

/-! ## practice.js: timer -/

/-- The element `#timerDisplay`: its text and its class list. -/
structure TimerDisplay where
  textContent : String
  classes : List String
  deriving DecidableEq

/-- `Number.MAX_SAFE_INTEGER`, `2^53 - 1`: up to it a JavaScript number counts the
whole numbers one by one, and `-`, `/` followed by `Math.floor`, `%` and the
decimal rendering of a whole number are those of the integers. -/
def maxSafeInteger : Nat := 9007199254740991

/-- The state the timer functions work on: the module variables `timerInterval`
(`none`: null), `timerSeconds` and `timerRunning`; the handles of the repeating
timers the browser has scheduled, and the next handle `setInterval` hands out;
the markup of `#timerStart` and the element `#timerDisplay` (`none`: not on the
page); the toasts shown, and whether `showToast` is defined.

`timerSeconds` is a whole number, held as an integer: the arithmetic below is
the script's while its absolute value stays within `maxSafeInteger`, which it
does in every state the page reaches (the script only assigns 120 and 0 and
counts down); beyond that a JavaScript number rounds and the integer does not. -/
structure TimerState where
  timerInterval : Option Nat
  timerSeconds : Int
  timerRunning : Bool
  intervals : List Nat
  nextHandle : Nat
  startBtn : Option String
  display : Option TimerDisplay
  toasts : List (String × String)
  hasShowToast : Bool
  deriving DecidableEq

/-- Markup of the start button while the timer is stopped. -/
def playIcon : String := "<i class=\"fas fa-play\"></i>"

/-- Markup of the start button while the timer runs. -/
def pauseIcon : String := "<i class=\"fas fa-pause\"></i>"

/-- `String.prototype.padStart(2, "0")`. -/
def padStart2 (str : String) : String :=
  if str.length < 2 then String.mk (List.replicate (2 - str.length) (Char.ofNat 48)) ++ str
  else str

/-- `clearInterval(handle)`: the timer with that handle is no longer scheduled. -/
def clearInterval (handle : Option Nat) (intervals : List Nat) : List Nat :=
  match handle with
  | none => intervals
  | some h => intervals.filter (fun i => i != h)

/-- `updateTimerDisplay`: `Math.floor(timerSeconds / 60)` is the floor division,
`%` the remainder with the sign of the dividend; exact for whole numbers within
`maxSafeInteger`. -/
def updateTimerDisplay (s : TimerState) : TimerState :=
  match s.display with
  | none => s
  | some timerDisplay =>
    let minutes := Int.fdiv s.timerSeconds 60
    let seconds := Int.tmod s.timerSeconds 60
    let text := toString minutes ++ ":" ++ padStart2 (toString seconds)
    let classes0 := timerDisplay.classes.filter (fun c => c != "warning" && c != "danger")
    let classes1 :=
      if s.timerSeconds ≤ 30 then classes0 ++ ["danger"]
      else if s.timerSeconds ≤ 60 then classes0 ++ ["warning"]
      else classes0
    { s with display := some { textContent := text, classes := classes1 } }

/-- The completion toast: message and type. -/
def timesUp : String × String :=
  ("Time\x27s up! Great practice session!", "success")

/-- The callback `toggleTimer` passes to `setInterval`.  `timerSeconds--` is the
integer predecessor, exact for whole numbers within `maxSafeInteger`. -/
def tickCallback (s : TimerState) : TimerState :=
  let s1 := { s with timerSeconds := s.timerSeconds - 1 }
  let s2 :=
    if s1.timerSeconds ≤ 0 then
      { s1 with
        intervals := clearInterval s1.timerInterval s1.intervals
        timerRunning := false
        timerSeconds := 0
        startBtn := s1.startBtn.map (fun _ => playIcon)
        toasts :=
          if s1.hasShowToast then
            s1.toasts ++ [timesUp]
          else s1.toasts }
    else s1
  updateTimerDisplay s2

/-- `toggleTimer`. -/
def toggleTimer (s : TimerState) : TimerState :=
  if s.timerRunning then
    { s with
      intervals := clearInterval s.timerInterval s.intervals
      timerRunning := false
      startBtn := s.startBtn.map (fun _ => playIcon) }
  else
    { s with
      timerRunning := true
      startBtn := s.startBtn.map (fun _ => pauseIcon)
      timerInterval := some s.nextHandle
      intervals := s.intervals ++ [s.nextHandle]
      nextHandle := s.nextHandle + 1 }

/-- `resetTimer`. -/
def resetTimer (s : TimerState) : TimerState :=
  updateTimerDisplay
    { s with
      intervals := clearInterval s.timerInterval s.intervals
      timerRunning := false
      timerSeconds := 120
      startBtn := s.startBtn.map (fun _ => playIcon) }

/-- The repeating timer with the given handle comes due: its callback runs if the
timer is still scheduled. -/
def fire (handle : Nat) (s : TimerState) : TimerState :=
  if s.intervals.contains handle then tickCallback s else s

/-- One second passes: every repeating timer scheduled at its start comes due
once, in the order of scheduling. -/
def tick (s : TimerState) : TimerState :=
  s.intervals.foldl (fun acc handle => fire handle acc) s

/-- The timer as the page loads it. -/
def initialTimer : TimerState :=
  { timerInterval := none
    timerSeconds := 120
    timerRunning := false
    intervals := []
    nextHandle := 1
    startBtn := some playIcon
    display := some { textContent := "2:00", classes := [] }
    toasts := []
    hasShowToast := true }

/-- The timer states the page can reach from a loaded state with nothing scheduled. -/
inductive Reachable : TimerState → Prop where
  | init (s : TimerState) (h1 : s.timerInterval = none) (h2 : s.timerRunning = false)
      (h3 : s.intervals = []) (h4 : s.timerSeconds = 120) : Reachable s
  | toggle (s : TimerState) (h : Reachable s) : Reachable (toggleTimer s)
  | reset (s : TimerState) (h : Reachable s) : Reachable (resetTimer s)
  | tick (s : TimerState) (h : Reachable s) : Reachable (tick s)

/-- The timer runs on the single repeating timer `h`, with `m` seconds remaining
and the toasts `ts` shown so far. -/
def Counting (h : Nat) (m : Int) (ts : List (String × String)) (s : TimerState) : Prop :=
  s.timerRunning = true ∧ s.intervals = [h] ∧ s.timerInterval = some h ∧
  s.timerSeconds = m ∧ s.toasts = ts ∧ s.hasShowToast = true

/-- The scheduled repeating timers agree with `timerRunning`: the one held in
`timerInterval` while running, none while stopped. -/
def TimerInv (s : TimerState) : Prop :=
  (s.timerRunning = true → ∃ h, s.timerInterval = some h ∧ s.intervals = [h]) ∧
  (s.timerRunning = false → s.intervals = [])

/-! ## app.js: debounce -/

/-- The event loop around one function returned by `debounce(func, wait)`: the
state `func` works on; the variable `timeout` of the closure (`none`:
undefined); the timeouts scheduled, each with its handle, the time it is due and
the arguments its `later` captured, in order of scheduling; the next handle
`setTimeout` hands out; the clock, in milliseconds; and the invocations of
`func` so far, each with its time and arguments.  A timeout runs when it is due. -/
structure Loop (σ α : Type) where
  world : σ
  timeout : Option Nat
  pending : List (Nat × Nat × α)
  nextHandle : Nat
  now : Nat
  invoked : List (Nat × α)

/-- `clearTimeout(handle)`. -/
def clearTimeout {α : Type} (handle : Option Nat) (pending : List (Nat × Nat × α)) :
    List (Nat × Nat × α) :=
  match handle with
  | none => pending
  | some h => pending.filter (fun t => t.1 != h)

/-- `executedFunction(...args)`, the function `debounce(func, wait)` returns. -/
def executedFunction {σ α : Type} (wait : Nat) (args : α) (s : Loop σ α) : Loop σ α :=
  { s with
    timeout := some s.nextHandle
    pending := clearTimeout s.timeout s.pending ++ [(s.nextHandle, s.now + wait, args)]
    nextHandle := s.nextHandle + 1 }

/-- The callback `later` of a call with the given arguments. -/
def later {σ α : Type} (func : α → σ → σ) (args : α) (s : Loop σ α) : Loop σ α :=
  { s with
    pending := clearTimeout s.timeout s.pending
    world := func args s.world
    invoked := s.invoked ++ [(s.now, args)] }

/-- A timeout comes due: if it is still scheduled it leaves the schedule and its
callback runs at its due time. -/
def expire {σ α : Type} (func : α → σ → σ) (t : Nat × Nat × α) (s : Loop σ α) : Loop σ α :=
  if s.pending.any (fun u => u.1 == t.1) then
    later func t.2.2 { s with pending := s.pending.filter (fun u => u.1 != t.1), now := t.2.1 }
  else s

/-- Time passes until `t`: the timeouts due by then expire, in order of scheduling
(which is the order of their due times, the delay being fixed). -/
def advanceTo {σ α : Type} (func : α → σ → σ) (t : Nat) (s : Loop σ α) : Loop σ α :=
  let s1 := (s.pending.filter (fun u => u.2.1 ≤ t)).foldl (fun acc u => expire func u acc) s
  { s1 with now := max s1.now t }

/-- A call of the debounced function: its time, what the caller did to the state
right before it (the typing that raised the input event), and its arguments. -/
structure Call (σ α : Type) where
  time : Nat
  edit : σ → σ
  args : α

/-- Time passes until the call, then the call is made. -/
def callAt {σ α : Type} (func : α → σ → σ) (wait : Nat) (s : Loop σ α) (c : Call σ α) :
    Loop σ α :=
  executedFunction wait c.args
    { advanceTo func c.time s with world := c.edit (advanceTo func c.time s).world }

/-- A sequence of calls, one after the other. -/
def runCalls {σ α : Type} (func : α → σ → σ) (wait : Nat) (calls : List (Call σ α))
    (s : Loop σ α) : Loop σ α :=
  calls.foldl (callAt func wait) s

/-- Each call arrives no earlier than the previous one, made at `t`, and before
`wait` has elapsed since. -/
def Rapid {σ α : Type} (wait : Nat) : Nat → List (Call σ α) → Prop
  | _, [] => True
  | t, c :: cs => t ≤ c.time ∧ c.time < t + wait ∧ Rapid wait c.time cs

/-- The last call of a non-empty sequence. -/
def lastCall {σ α : Type} : Call σ α → List (Call σ α) → Call σ α
  | c, [] => c
  | _, d :: ds => lastCall d ds

/-- What the callers did to the state, in sequence. -/
def editsOf {σ α : Type} (calls : List (Call σ α)) (w : σ) : σ :=
  calls.foldl (fun acc c => c.edit acc) w

/-- The loop right after `debounce(func, wait)` returned. -/
def freshLoop {σ α : Type} (world : σ) (now : Nat) : Loop σ α :=
  { world := world, timeout := none, pending := [], nextHandle := 1, now := now, invoked := [] }

/-- One timeout is scheduled, for the call made at `t` with `args`, nothing has
been invoked, and the state is `w`. -/
def Armed {σ α : Type} (wait t : Nat) (args : α) (w : σ) (s : Loop σ α) : Prop :=
  ∃ h, s.pending = [(h, t + wait, args)] ∧ s.timeout = some h ∧ s.invoked = [] ∧
    s.now = t ∧ s.world = w

/-- The listener `initPractice` registers on every `#practice textarea`, as
`debounce` runs it: `func(...args)` is a plain call, so `this` is not the
textarea but the global object (undefined in strict code).  `saveDrafts()` runs
first; then `showSavedIndicator(this)` evaluates
`this.parentElement.querySelector`, where `this.parentElement` is not an
element, and raises a TypeError, so `updateCharCount(this)` is never reached.
The result is the state after and the exception the call ends with. -/
def inputListener (P : Platform) (s : PracticeState) : PracticeState × Option JsError :=
  (saveDrafts P s, some .typeError)

/-- What a firing of the listener does to the drafts state; the exception it
ends with goes to the browser and undoes nothing. -/
def inputHandler (P : Platform) : Unit → PracticeState → PracticeState :=
  fun _ s => (inputListener P s).1

/-- The user types: the textarea at position `k` holds `text`. -/
def typeInto (k : Nat) (text : String) (s : PracticeState) : PracticeState :=
  { s with fields := modifyAt (Field.setValue text) k s.fields }

/-- An input event on the textarea at position `k` at time `t`, the textarea
holding `text`. -/
def inputEvent (t k : Nat) (text : String) : Call PracticeState Unit :=
  { time := t, edit := typeInto k text, args := () }

/-- Three input events on the only field of a page, 100 and 200 milliseconds
apart, and the loop half a second after the last one. -/
def threeInputsOn (f : Field) : Loop PracticeState Unit :=
  advanceTo (inputHandler samplePlatform) 800
    (runCalls (inputHandler samplePlatform) 500
      [inputEvent 0 0 "Led", inputEvent 100 0 "Led the", inputEvent 300 0 "Led the migration"]
      (freshLoop (mkSession [f] none) 0))

/-- A practice textarea without `data-question`: `initPractice` gives it the
listener, `saveDrafts` does not select it. -/
def unkeyedField : Field :=
  { inPractice := true, question := none, sectionId := some "situation", value := "" }

/-- The display text as the specification words it: the decimal of
`floor(r / 60)`, a colon, and `r mod 60` written with exactly two decimal
digits. -/
def specTimerText (r : Nat) : String :=
  toString (r / 60) ++ ":" ++
    String.mk [Nat.digitChar (r % 60 / 10), Nat.digitChar (r % 60 % 10)]

/-- The timer as loaded, with the given number of seconds remaining. -/
def timerAt (r : Nat) : TimerState :=
  { initialTimer with timerSeconds := r }

/-- What the scripts never change in an element: its id and whether it is a
section content element. -/
def pageKey (e : Elem) : String × Bool :=
  (e.id, e.hasClass "tab-content")

/-! ## Theorems: tabs.js -/

theorem contains_iff_mem (l : List String) (c : String) : l.contains c = true ↔ c ∈ l := by
  simp

theorem hasClass_addClass (c d : String) (e : Elem) :
    (e.addClass c).hasClass d = (e.hasClass d || d == c) := by
  unfold Elem.addClass Elem.hasClass
  rw [Bool.eq_iff_iff]
  by_cases h : e.classes.contains c = true
  · rw [if_pos h]
    simp only [contains_iff_mem, Bool.or_eq_true, beq_iff_eq] at h ⊢
    constructor
    · exact Or.inl
    · rintro (h1 | h1)
      · exact h1
      · exact h1 ▸ h
  · rw [if_neg h]
    simp only [contains_iff_mem, Bool.or_eq_true, beq_iff_eq, List.mem_append,
      List.mem_singleton]

theorem hasClass_removeClass (c d : String) (e : Elem) :
    (e.removeClass c).hasClass d = (e.hasClass d && d != c) := by
  unfold Elem.removeClass Elem.hasClass
  rw [Bool.eq_iff_iff]
  simp only [contains_iff_mem, List.mem_filter, Bool.and_eq_true, bne_iff_ne, ne_eq]

theorem id_addClass (c : String) (e : Elem) : (e.addClass c).id = e.id := by
  unfold Elem.addClass; split <;> rfl

theorem id_removeClass (c : String) (e : Elem) : (e.removeClass c).id = e.id := rfl

theorem id_hideSection (e : Elem) : (hideSection e).id = e.id := by
  unfold hideSection; split <;> rfl

theorem id_deselectButton (e : Elem) : (deselectButton e).id = e.id := by
  unfold deselectButton; split <;> rfl

theorem id_selectButton (e : Elem) : (selectButton e).id = e.id := by
  show (e.addClass "active").id = e.id
  exact id_addClass _ _

theorem hasClass_selectButton (d : String) (e : Elem) :
    (selectButton e).hasClass d = (e.hasClass d || d == "active") :=
  hasClass_addClass "active" d e

theorem hasClass_deselectButton (d : String) (e : Elem) :
    (deselectButton e).hasClass d = (e.hasClass d && !(e.hasClass "tab-button" && d == "active")) := by
  unfold deselectButton
  by_cases h : e.hasClass "tab-button" = true
  · rw [if_pos h]
    have := hasClass_removeClass "active" d e
    have h2 : ({ e.removeClass "active" with ariaSelected := some "false" } : Elem).hasClass d
        = (e.removeClass "active").hasClass d := rfl
    rw [h2, this, h]
    simp [bne]
  · rw [if_neg h]
    have : e.hasClass "tab-button" = false := by simpa using h
    simp [this]

/-- After the two clearing loops of `openTab` no section content element is
marked active, and its being a section content element is untouched. -/
theorem cleared (e : Elem) :
    (deselectButton (hideSection e)).id = e.id ∧
    (deselectButton (hideSection e)).hasClass "tab-content" = e.hasClass "tab-content" ∧
    isActiveSection (deselectButton (hideSection e)) = false := by
  refine ⟨by rw [id_deselectButton, id_hideSection], ?_, ?_⟩
  · rw [hasClass_deselectButton]
    unfold hideSection
    by_cases h : e.hasClass "tab-content" = true
    · rw [if_pos h, hasClass_removeClass]; simp [h]
    · rw [if_neg h]; simp
  · unfold isActiveSection
    rw [hasClass_deselectButton, hasClass_deselectButton]
    unfold hideSection
    by_cases h : e.hasClass "tab-content" = true
    · rw [if_pos h, hasClass_removeClass, hasClass_removeClass, hasClass_removeClass]; simp
    · rw [if_neg h]
      have : e.hasClass "tab-content" = false := by simpa using h
      simp [this]

theorem modifyAt_firstIdx {α : Type} (p : α → Bool) (f : α → α) (l : List α) :
    (match firstIdx p l with
      | some j => modifyAt f j l
      | none => l) = modifyFirst p f l := by
  induction l with
  | nil => rfl
  | cons x xs ih =>
    by_cases h : p x = true
    · simp [firstIdx, modifyFirst, h, modifyAt]
    · cases hf : firstIdx p xs with
      | none =>
        rw [hf] at ih
        simp only at ih
        have hx : p x = false := by simpa using h
        simp only [firstIdx, modifyFirst, hx, hf, Option.map_none']
        simp [← ih]
      | some j =>
        rw [hf] at ih
        simp only at ih
        have hx : p x = false := by simpa using h
        simp only [firstIdx, modifyFirst, hx, hf, Option.map_some']
        simp [modifyAt, ih]

/-- The element `getElementById` finds is modified in place. -/
theorem modify_getElementById (f : Elem → Elem) (name : String) (l : List Elem) :
    (match getElementById l name with
      | some j => modifyAt f j l
      | none => l) = if name = "" then l else modifyFirst (fun e => e.id == name) f l := by
  unfold getElementById
  by_cases h : name = ""
  · simp [h]
  · rw [if_neg h, if_neg h]
    exact modifyAt_firstIdx _ f l

theorem mem_modifyFirst {α : Type} (p : α → Bool) (f : α → α) (l : List α) (y : α)
    (hy : y ∈ modifyFirst p f l) : y ∈ l ∨ ∃ x ∈ l, p x = true ∧ y = f x := by
  induction l with
  | nil => simp [modifyFirst] at hy
  | cons x xs ih =>
    unfold modifyFirst at hy
    by_cases h : p x = true
    · rw [if_pos h] at hy
      rcases List.mem_cons.mp hy with h1 | h1
      · exact Or.inr ⟨x, List.mem_cons_self _ _, h, h1⟩
      · exact Or.inl (List.mem_cons_of_mem _ h1)
    · rw [if_neg h] at hy
      rcases List.mem_cons.mp hy with h1 | h1
      · exact Or.inl (h1 ▸ List.mem_cons_self _ _)
      · rcases ih h1 with h2 | ⟨z, hz, hpz, hyz⟩
        · exact Or.inl (List.mem_cons_of_mem _ h2)
        · exact Or.inr ⟨z, List.mem_cons_of_mem _ hz, hpz, hyz⟩

theorem mem_modifyAt {α : Type} (f : α → α) (j : Nat) (l : List α) (y : α)
    (hy : y ∈ modifyAt f j l) : y ∈ l ∨ ∃ x ∈ l, y = f x := by
  induction l generalizing j with
  | nil => simp [modifyAt] at hy
  | cons x xs ih =>
    cases j with
    | zero =>
      simp only [modifyAt] at hy
      rcases List.mem_cons.mp hy with h1 | h1
      · exact Or.inr ⟨x, List.mem_cons_self _ _, h1⟩
      · exact Or.inl (List.mem_cons_of_mem _ h1)
    | succ j =>
      simp only [modifyAt] at hy
      rcases List.mem_cons.mp hy with h1 | h1
      · exact Or.inl (h1 ▸ List.mem_cons_self _ _)
      · rcases ih j h1 with h2 | ⟨z, hz, hyz⟩
        · exact Or.inl (List.mem_cons_of_mem _ h2)
        · exact Or.inr ⟨z, List.mem_cons_of_mem _ hz, hyz⟩

theorem secIds_nil : secIds [] = [] := rfl

theorem secIds_cons (e : Elem) (l : List Elem) :
    secIds (e :: l) = if isActiveSection e = true then e.id :: secIds l else secIds l := by
  unfold secIds
  by_cases h : isActiveSection e = true
  · simp [List.filter_cons, h]
  · simp [List.filter_cons, h]

theorem mem_secIds (x : String) (l : List Elem) :
    x ∈ secIds l ↔ ∃ e ∈ l, isActiveSection e = true ∧ e.id = x := by
  unfold secIds
  simp only [List.mem_map, List.mem_filter]
  constructor
  · rintro ⟨e, ⟨h1, h2⟩, h3⟩; exact ⟨e, h1, h2, h3⟩
  · rintro ⟨e, h1, h2, h3⟩; exact ⟨e, ⟨h1, h2⟩, h3⟩

/-- A change that keeps ids and active-section marks keeps the active sections. -/
theorem secIds_modifyAt (f : Elem → Elem) (hid : ∀ e, (f e).id = e.id)
    (hs : ∀ e, isActiveSection (f e) = isActiveSection e) (j : Nat) (l : List Elem) :
    secIds (modifyAt f j l) = secIds l := by
  induction l generalizing j with
  | nil => cases j <;> rfl
  | cons x xs ih =>
    cases j with
    | zero => simp only [modifyAt, secIds_cons, hid, hs]
    | succ j => simp only [modifyAt, secIds_cons, ih]

theorem secIds_cleared (l : List Elem) :
    secIds ((l.map hideSection).map deselectButton) = [] := by
  induction l with
  | nil => rfl
  | cons x xs ih =>
    simp only [List.map_cons, secIds_cons, (cleared x).2.2, ih]
    simp

theorem currentTabIndex_updateProgressBar (s : TabState) :
    (updateProgressBar s).currentTabIndex = s.currentTabIndex := by
  unfold updateProgressBar
  split
  · rfl
  · dsimp only
    split <;> rfl

theorem secIds_updateProgressBar (s : TabState) :
    secIds (updateProgressBar s).doc = secIds s.doc := by
  unfold updateProgressBar
  split
  · rfl
  · dsimp only
    split
    · dsimp only
      apply secIds_modifyAt <;> intro _ <;> rfl
    · dsimp only
      refine Eq.trans (secIds_modifyAt _ ?_ ?_ _ _) (secIds_modifyAt _ ?_ ?_ _ _) <;>
        intro _ <;> rfl

theorem currentTabIndex_updateNavButtons (s : TabState) :
    (updateNavButtons s).currentTabIndex = s.currentTabIndex := rfl

theorem isActiveSection_hidden (e : Elem) (b : Bool) (i : Int) :
    isActiveSection (if i = 0 then Elem.addClass "hidden" { e with disabled := b }
      else Elem.removeClass "hidden" { e with disabled := b }) = isActiveSection e := by
  unfold isActiveSection
  split
  · rw [hasClass_addClass, hasClass_addClass]
    have h1 : ("tab-content" == "hidden") = false := by decide
    have h2 : ("active" == "hidden") = false := by decide
    rw [h1, h2, Bool.or_false, Bool.or_false]
    rfl
  · rw [hasClass_removeClass, hasClass_removeClass]
    have h1 : ("tab-content" != "hidden") = true := by decide
    have h2 : ("active" != "hidden") = true := by decide
    rw [h1, h2, Bool.and_true, Bool.and_true]
    rfl

theorem secIds_updateNavButtons (s : TabState) :
    secIds (updateNavButtons s).doc = secIds s.doc := by
  unfold updateNavButtons
  dsimp only
  have hprev : secIds (match getElementById s.doc "prevBtn" with
      | none => s.doc
      | some p =>
        modifyAt (fun e =>
          let e1 := { e with disabled := decide (s.currentTabIndex = 0) }
          if s.currentTabIndex = 0 then e1.addClass "hidden" else e1.removeClass "hidden") p s.doc)
      = secIds s.doc := by
    split
    · rfl
    · apply secIds_modifyAt
      · intro e
        dsimp only
        split
        · exact id_addClass _ _
        · rfl
      · intro e
        exact isActiveSection_hidden e _ _
  split
  · exact hprev
  · rw [secIds_modifyAt, hprev]
    · intro e
      dsimp only
      split <;> rfl
    · intro e
      dsimp only
      split <;> rfl

theorem currentTabIndex_openTab (evt : Option Nat) (t : String) (s : TabState) :
    (openTab evt t s).currentTabIndex = indexOf tabOrder t := by
  unfold openTab
  dsimp only
  rw [currentTabIndex_updateNavButtons, currentTabIndex_updateProgressBar]

theorem fragment_openTab (evt : Option Nat) (t : String) (s : TabState) :
    (openTab evt t s).fragment = urlFragment t := rfl

/-- The active sections after `openTab(null, t)`, read off the two in-place
changes made after the clearing loops. -/
theorem secIds_openTab (t : String) (s : TabState) :
    secIds (openTab none t s).doc =
      secIds (modifyFirst (fun e => e.id == "tab-" ++ t) selectButton
        (if t = "" then (s.doc.map hideSection).map deselectButton
          else modifyFirst (fun e => e.id == t) (Elem.addClass "active")
            ((s.doc.map hideSection).map deselectButton))) := by
  have hne : ¬ ("tab-" ++ t = "") := by
    intro h
    have := congrArg String.length h
    rw [String.length_append] at this
    have h4 : "tab-".length = 4 := by decide
    have h0 : "".length = 0 := by decide
    omega
  unfold openTab
  dsimp only
  rw [secIds_updateNavButtons, secIds_updateProgressBar]
  dsimp only
  rw [modify_getElementById, modify_getElementById, if_neg hne]

theorem tab_ne (S : String) : ¬ (S = "tab-" ++ S) := by
  intro h
  have := congrArg String.length h
  rw [String.length_append] at this
  have h4 : "tab-".length = 4 := by decide
  omega

theorem isActiveSection_addActive (e : Elem) :
    isActiveSection (e.addClass "active") = e.hasClass "tab-content" := by
  unfold isActiveSection
  rw [hasClass_addClass, hasClass_addClass]
  have h1 : ("tab-content" == "active") = false := by decide
  have h2 : ("active" == "active") = true := by decide
  rw [h1, h2, Bool.or_false, Bool.or_true, Bool.and_true]

theorem isActiveSection_selectButton (e : Elem) :
    isActiveSection (selectButton e) = e.hasClass "tab-content" :=
  isActiveSection_addActive e

/-- Selecting the tab button marks no section when no section carries the
button's id. -/
theorem secIds_button_only (B : String) (l : List Elem)
    (hb : ∀ x ∈ l, x.id = B → x.hasClass "tab-content" = false) :
    secIds (modifyFirst (fun e => e.id == B) selectButton
      ((l.map hideSection).map deselectButton)) = [] := by
  induction l with
  | nil => rfl
  | cons x xs ih =>
    have hc := cleared x
    have ih1 := ih (fun y hy => hb y (List.mem_cons_of_mem _ hy))
    simp only [List.map_cons, modifyFirst]
    by_cases hx : x.id = B
    · have : ((deselectButton (hideSection x)).id == B) = true := by
        rw [hc.1]; simpa using hx
      rw [if_pos this, secIds_cons, isActiveSection_selectButton, hc.2.1,
        hb x (List.mem_cons_self _ _) hx]
      simpa using secIds_cleared xs
    · have : ¬ (((deselectButton (hideSection x)).id == B) = true) := by
        rw [hc.1]; simpa using hx
      rw [if_neg this, secIds_cons, hc.2.2]
      simpa using ih1

/-- Activating the target marks exactly the target when it is a section. -/
theorem secIds_target_only (S : String) (l : List Elem) (j : Nat) (e : Elem)
    (hfind : firstIdx (fun e => e.id == S) l = some j) (hget : l.get? j = some e)
    (hsec : e.hasClass "tab-content" = true) :
    secIds (modifyFirst (fun e => e.id == S) (Elem.addClass "active")
      ((l.map hideSection).map deselectButton)) = [S] := by
  induction l generalizing j with
  | nil => simp [firstIdx] at hfind
  | cons x xs ih =>
    have hc := cleared x
    simp only [List.map_cons, modifyFirst]
    by_cases hx : x.id = S
    · have hp : ((deselectButton (hideSection x)).id == S) = true := by
        rw [hc.1]; simpa using hx
      have hj : j = 0 := by
        have : (x.id == S) = true := by simpa using hx
        simp only [firstIdx, this, if_true, Option.some.injEq] at hfind
        exact hfind.symm
      subst hj
      have hex : e = x := by simpa using hget.symm
      subst hex
      rw [if_pos hp, secIds_cons, isActiveSection_addActive, hc.2.1, hsec, if_pos rfl,
        id_addClass, hc.1, hx, secIds_cleared]
    · have hp : ¬ (((deselectButton (hideSection x)).id == S) = true) := by
        rw [hc.1]; simpa using hx
      have hxf : (x.id == S) = false := by simpa using hx
      simp only [firstIdx, hxf] at hfind
      cases hf : firstIdx (fun e => e.id == S) xs with
      | none => simp [hf] at hfind
      | some k =>
        rw [hf] at hfind
        have hj : j = k + 1 := by simpa using hfind.symm
        subst hj
        have hget1 : xs.get? k = some e := by simpa using hget
        rw [if_neg hp, secIds_cons, hc.2.2]
        simpa using ih k hf hget1

/-- After the clearing loops, activating the target and selecting its button
leaves the target as the only active section. -/
theorem secIds_selected (S : String) (l : List Elem) (j : Nat) (e : Elem)
    (hfind : firstIdx (fun e => e.id == S) l = some j) (hget : l.get? j = some e)
    (hsec : e.hasClass "tab-content" = true)
    (hb : ∀ x ∈ l, x.id = "tab-" ++ S → x.hasClass "tab-content" = false) :
    secIds (modifyFirst (fun e => e.id == "tab-" ++ S) selectButton
      (modifyFirst (fun e => e.id == S) (Elem.addClass "active")
        ((l.map hideSection).map deselectButton))) = [S] := by
  induction l generalizing j with
  | nil => simp [firstIdx] at hfind
  | cons x xs ih =>
    have hc := cleared x
    have hb1 : ∀ y ∈ xs, y.id = "tab-" ++ S → y.hasClass "tab-content" = false :=
      fun y hy => hb y (List.mem_cons_of_mem _ hy)
    simp only [List.map_cons, modifyFirst]
    by_cases hx : x.id = S
    · have hp : ((deselectButton (hideSection x)).id == S) = true := by
        rw [hc.1]; simpa using hx
      have hj : j = 0 := by
        have : (x.id == S) = true := by simpa using hx
        simp only [firstIdx, this, if_true, Option.some.injEq] at hfind
        exact hfind.symm
      subst hj
      have hex : e = x := by simpa using hget.symm
      subst hex
      have hq : ¬ ((((deselectButton (hideSection e)).addClass "active").id == "tab-" ++ S)
          = true) := by
        rw [id_addClass, hc.1, hx]; simpa using tab_ne S
      rw [if_pos hp]
      simp only [modifyFirst]
      rw [if_neg hq, secIds_cons, isActiveSection_addActive, hc.2.1, hsec, if_pos rfl,
        id_addClass, hc.1, hx, secIds_button_only _ xs hb1]
    · have hp : ¬ (((deselectButton (hideSection x)).id == S) = true) := by
        rw [hc.1]; simpa using hx
      have hxf : (x.id == S) = false := by simpa using hx
      simp only [firstIdx, hxf] at hfind
      cases hf : firstIdx (fun e => e.id == S) xs with
      | none => simp [hf] at hfind
      | some k =>
        rw [hf] at hfind
        have hj : j = k + 1 := by simpa using hfind.symm
        subst hj
        have hget1 : xs.get? k = some e := by simpa using hget
        rw [if_neg hp]
        simp only [modifyFirst]
        by_cases hq : x.id = "tab-" ++ S
        · have hq1 : ((deselectButton (hideSection x)).id == "tab-" ++ S) = true := by
            rw [hc.1]; simpa using hq
          rw [if_pos hq1, secIds_cons, isActiveSection_selectButton, hc.2.1,
            hb x (List.mem_cons_self _ _) hq]
          simpa using secIds_target_only S xs k e hf hget1 hsec
        · have hq1 : ¬ (((deselectButton (hideSection x)).id == "tab-" ++ S) = true) := by
            rw [hc.1]; simpa using hq
          rw [if_neg hq1, secIds_cons, hc.2.2]
          simpa using ih k hf hget1 hb1

theorem indexOf_unknown (t : String) (ht : t ∉ tabOrder) : indexOf tabOrder t = -1 := by
  simp only [tabOrder, List.mem_cons, List.mem_singleton, List.not_mem_nil, or_false,
    not_or] at ht
  obtain ⟨h1, h2, h3, h4, h5, h6⟩ := ht
  simp only [indexOf, tabOrder, indexOfFrom, Ne.symm h1, Ne.symm h2, Ne.symm h3, Ne.symm h4,
    Ne.symm h5, Ne.symm h6, if_false]

theorem not_active_of_mem_cleared (l : List Elem) (e : Elem)
    (he : e ∈ (l.map hideSection).map deselectButton) : isActiveSection e = false := by
  rw [List.map_map] at he
  obtain ⟨x, _, hx⟩ := List.mem_map.mp he
  rw [← hx]
  exact (cleared x).2.2

theorem plainChar_kept (c : Char) (h : isPlainChar c = true) :
    isC0OrSpace c = false ∧ isTabOrNewline c = false ∧ inFragmentEncodeSet c = false := by
  unfold isPlainChar at h
  unfold isC0OrSpace isTabOrNewline inFragmentEncodeSet
  simp only [Bool.or_eq_true, Bool.and_eq_true, decide_eq_true_eq] at h
  simp only [Bool.or_eq_false_iff, decide_eq_false_iff_not]
  omega

theorem stripTrailing_kept (l : List Char) (h : ∀ c ∈ l, isC0OrSpace c = false) :
    stripTrailing l = l := by
  induction l with
  | nil => rfl
  | cons c cs ih =>
    have hcs := ih (fun x hx => h x (List.mem_cons_of_mem _ hx))
    rw [stripTrailing, hcs]
    cases cs with
    | nil => simp [h c (List.mem_cons_self _ _)]
    | cons d ds => rfl

theorem flatMap_kept (l : List Char) (h : ∀ c ∈ l, inFragmentEncodeSet c = false) :
    l.flatMap encodeFragmentChar = l := by
  induction l with
  | nil => rfl
  | cons c cs ih =>
    rw [List.flatMap_cons, ih (fun x hx => h x (List.mem_cons_of_mem _ hx))]
    simp [encodeFragmentChar, h c (List.mem_cons_self _ _)]

/-- The URL parser leaves a name made of letters, digits, `-` and `_` as it is. -/
theorem urlFragment_plain (t : String) (h : plainName t = true) : urlFragment t = t := by
  unfold plainName at h
  rw [List.all_eq_true] at h
  unfold urlFragment
  rw [stripTrailing_kept _ (fun c hc => (plainChar_kept c (h c hc)).1)]
  rw [List.filter_eq_self.mpr (fun c hc => by simp [(plainChar_kept c (h c hc)).2.1])]
  rw [flatMap_kept _ (fun c hc => (plainChar_kept c (h c hc)).2.2)]

/-- C1 (as stated, refuted): on the page as first loaded, `openTab(null, "bogus")`
with `"bogus"` not in `tabOrder` changes the state: the index goes from 0 to -1,
the section `basics` stops being active and no section is, the previous button
goes from disabled to enabled, and the fragment goes from `basics` to `bogus`. -/
theorem C1_openTab_unknown_changes_state :
    "bogus" ∉ tabOrder ∧
    samplePage.currentTabIndex = 0 ∧
    (openTab none "bogus" samplePage).currentTabIndex = -1 ∧
    (activeSections samplePage).map (fun e => e.id) = ["basics"] ∧
    (activeSections (openTab none "bogus" samplePage)).map (fun e => e.id) = [] ∧
    (samplePage.doc.get? 14).map (fun e => (e.id, e.disabled)) = some ("prevBtn", true) ∧
    ((openTab none "bogus" samplePage).doc.get? 14).map (fun e => (e.id, e.disabled))
      = some ("prevBtn", false) ∧
    samplePage.fragment = "basics" ∧
    (openTab none "bogus" samplePage).fragment = "bogus" := by
  decide

/-- C1 (amended): for every string `t` that is not in `tabOrder` and every state,
navigation from the address bar (`initTabFromHash` with fragment `t`) leaves the
state identical, while `openTab(null, t)` sets the current index to `-1`, leaves
no section content element active except one whose id is `t` or `"tab-" + t`,
and, when `t` is made of ASCII letters, digits, `-` and `_` (a name the URL
parser does not rewrite), sets the fragment to `t`. -/
theorem C1_unknown_section (t : String) (s : TabState) (ht : t ∉ tabOrder) :
    initTabFromHash { s with fragment := t } = { s with fragment := t } ∧
    (openTab none t s).currentTabIndex = -1 ∧
    (∀ e ∈ activeSections (openTab none t s), e.id = t ∨ e.id = "tab-" ++ t) ∧
    (plainName t = true → (openTab none t s).fragment = t) := by
  refine ⟨?_, ?_, ?_, fun hp => (fragment_openTab none t s).trans (urlFragment_plain t hp)⟩
  · unfold initTabFromHash
    have hc : tabOrder.contains t = false := by simpa using ht
    dsimp only
    rw [if_neg]
    rintro ⟨_, h⟩
    rw [hc] at h
    exact absurd h (by decide)
  · rw [currentTabIndex_openTab, indexOf_unknown t ht]
  · intro e he
    have hmem : e.id ∈ secIds (openTab none t s).doc := by
      unfold activeSections at he
      rw [mem_secIds]
      exact ⟨e, (List.mem_filter.mp he).1, (List.mem_filter.mp he).2, rfl⟩
    rw [secIds_openTab, mem_secIds] at hmem
    obtain ⟨y, hy, hact, hid⟩ := hmem
    rw [← hid]
    rcases mem_modifyFirst _ _ _ _ hy with h1 | ⟨z, _, hpz, hyz⟩
    · by_cases h0 : t = ""
      · rw [if_pos h0] at h1
        rw [not_active_of_mem_cleared _ _ h1] at hact
        exact absurd hact (by decide)
      · rw [if_neg h0] at h1
        rcases mem_modifyFirst _ _ _ _ h1 with h2 | ⟨z, _, hpz, hyz⟩
        · rw [not_active_of_mem_cleared _ _ h2] at hact
          exact absurd hact (by decide)
        · left
          rw [hyz, id_addClass]
          simpa using hpz
    · right
      rw [hyz, id_selectButton]
      simpa using hpz

/-- Witness of `C1_unknown_section` at `t = "bogus"` on the page as first loaded. -/
theorem C1_unknown_section_witness :
    "bogus" ∉ tabOrder ∧
    initTabFromHash { samplePage with fragment := "bogus" }
      = { samplePage with fragment := "bogus" } ∧
    (openTab none "bogus" samplePage).currentTabIndex = -1 ∧
    (openTab none "bogus" samplePage).fragment = "bogus" :=
  ⟨by decide, (C1_unknown_section "bogus" samplePage (by decide)).1,
    (C1_unknown_section "bogus" samplePage (by decide)).2.1,
    (C1_unknown_section "bogus" samplePage (by decide)).2.2.2 (by decide)⟩

/-- C2: for every current index `i` and direction `d` (in particular `i` in
`[0, 6)` and `d` in `{-1, +1}`), `navigateTabs(d)` leaves the state unchanged
when `i + d` is outside `[0, 6)`, and otherwise is `openTab(null, tabOrder[i + d])`
and ends with the current index equal to `i + d`. -/
theorem C2_navigateTabs (s : TabState) (d : Int) :
    ((s.currentTabIndex + d < 0 ∨ 6 ≤ s.currentTabIndex + d) → navigateTabs d s = s) ∧
    ((0 ≤ s.currentTabIndex + d ∧ s.currentTabIndex + d < 6) →
      ∃ name, tabOrder.get? (s.currentTabIndex + d).toNat = some name ∧
        navigateTabs d s = openTab none name s ∧
        (navigateTabs d s).currentTabIndex = s.currentTabIndex + d) := by
  constructor
  · intro hout
    unfold navigateTabs
    have hlen : (tabOrder.length : Int) = 6 := by decide
    dsimp only
    rw [hlen, if_neg (by omega)]
  · intro hin
    have hcases : s.currentTabIndex + d = 0 ∨ s.currentTabIndex + d = 1 ∨
        s.currentTabIndex + d = 2 ∨ s.currentTabIndex + d = 3 ∨
        s.currentTabIndex + d = 4 ∨ s.currentTabIndex + d = 5 := by omega
    have hlen : (tabOrder.length : Int) = 6 := by decide
    unfold navigateTabs
    dsimp only
    rw [hlen, if_pos hin]
    rcases hcases with h | h | h | h | h | h <;> rw [h]
    · exact ⟨"basics", rfl, rfl, currentTabIndex_openTab none "basics" s⟩
    · exact ⟨"components", rfl, rfl, currentTabIndex_openTab none "components" s⟩
    · exact ⟨"questions", rfl, rfl, currentTabIndex_openTab none "questions" s⟩
    · exact ⟨"tips", rfl, rfl, currentTabIndex_openTab none "tips" s⟩
    · exact ⟨"examples", rfl, rfl, currentTabIndex_openTab none "examples" s⟩
    · exact ⟨"practice", rfl, rfl, currentTabIndex_openTab none "practice" s⟩

/-- Witness of `C2_navigateTabs`: on the page as first loaded (index 0), stepping
back is a no-op and stepping forward opens `components` at index 1. -/
theorem C2_navigateTabs_witness :
    navigateTabs (-1) samplePage = samplePage ∧
    (navigateTabs 1 samplePage).currentTabIndex = 1 :=
  ⟨(C2_navigateTabs samplePage (-1)).1 (by decide),
    by
      obtain ⟨_, _, _, h⟩ := (C2_navigateTabs samplePage 1).2 (by decide)
      exact h⟩

/-- C3: for every section id `S` of `tabOrder` and every prior state of a page
that holds the section (the element found under the id `S` is a section content
element, and no section content element carries the id of its tab button),
after `openTab(null, S)` exactly one section content element is marked active,
the one whose id is `S`, and the current index is the position of `S` in
`tabOrder`. -/
theorem C3_openTab_activates (S : String) (s : TabState) (j : Nat) (e : Elem)
    (hS : S ∈ tabOrder)
    (hfind : getElementById s.doc S = some j) (hget : s.doc.get? j = some e)
    (hsec : e.hasClass "tab-content" = true)
    (hbtn : ∀ x ∈ s.doc, x.id = "tab-" ++ S → x.hasClass "tab-content" = false) :
    (activeSections (openTab none S s)).map (fun e => e.id) = [S] ∧
    (∃ n : Nat, (openTab none S s).currentTabIndex = (n : Int) ∧ tabOrder.get? n = some S) := by
  have hne : ¬ (S = "") := by
    intro h
    rw [h] at hS
    exact absurd hS (by decide)
  constructor
  · show secIds (openTab none S s).doc = [S]
    rw [secIds_openTab, if_neg hne]
    unfold getElementById at hfind
    rw [if_neg hne] at hfind
    exact secIds_selected S s.doc j e hfind hget hsec hbtn
  · rw [currentTabIndex_openTab]
    simp only [tabOrder, List.mem_cons, List.mem_singleton, List.not_mem_nil, or_false] at hS
    rcases hS with h | h | h | h | h | h <;> subst h
    · exact ⟨0, rfl, rfl⟩
    · exact ⟨1, rfl, rfl⟩
    · exact ⟨2, rfl, rfl⟩
    · exact ⟨3, rfl, rfl⟩
    · exact ⟨4, rfl, rfl⟩
    · exact ⟨5, rfl, rfl⟩

/-- Witness of `C3_openTab_activates`: opening `tips` on the page as first loaded. -/
theorem C3_openTab_activates_witness :
    (activeSections (openTab none "tips" samplePage)).map (fun e => e.id) = ["tips"] ∧
    (∃ n : Nat, (openTab none "tips" samplePage).currentTabIndex = (n : Int) ∧
      tabOrder.get? n = some "tips") :=
  C3_openTab_activates "tips" samplePage 11 (mkElem "tips" ["tab-content"])
    (by decide) (by decide) (by decide) (by decide) (by decide)

/-! ## Theorems: drafts -/

theorem getOwn_cons {α : Type} (k a : String) (b : α) (l : List (String × α)) :
    getOwn k ((a, b) :: l) = if a = k then some b else getOwn k l := rfl

theorem getOwn_mapReplace_ne {α : Type} (k k1 : String) (v : α) (l : List (String × α))
    (h : k1 ≠ k) :
    getOwn k1 (l.map (fun p => if p.1 = k then (k, v) else p)) = getOwn k1 l := by
  induction l with
  | nil => rfl
  | cons x xs ih =>
    obtain ⟨a, b⟩ := x
    rw [List.map_cons]
    by_cases ha : a = k
    · have hak : ¬ (k = k1) := fun e => h e.symm
      have hak1 : ¬ (a = k1) := fun e => h (e ▸ ha)
      rw [if_pos (show (a, b).1 = k from ha), getOwn_cons, getOwn_cons, if_neg hak,
        if_neg hak1, ih]
    · rw [if_neg (show ¬ ((a, b).1 = k) from ha), getOwn_cons, getOwn_cons, ih]

theorem getOwn_mapReplace_eq {α : Type} (k : String) (v w : α) (l : List (String × α))
    (h : getOwn k l = some w) :
    getOwn k (l.map (fun p => if p.1 = k then (k, v) else p)) = some v := by
  induction l with
  | nil => simp [getOwn] at h
  | cons x xs ih =>
    obtain ⟨a, b⟩ := x
    rw [List.map_cons]
    by_cases ha : a = k
    · rw [if_pos (show (a, b).1 = k from ha), getOwn_cons, if_pos rfl]
    · rw [getOwn_cons, if_neg ha] at h
      rw [if_neg (show ¬ ((a, b).1 = k) from ha), getOwn_cons, if_neg ha]
      exact ih h

theorem getOwn_insertProp {α : Type} (k k1 : String) (v : α) (l : List (String × α))
    (h : getOwn k l = none) :
    getOwn k1 (insertProp k v l) = if k1 = k then some v else getOwn k1 l := by
  induction l with
  | nil =>
    simp only [insertProp, getOwn]
    by_cases hk : k = k1
    · simp [hk]
    · have : ¬ (k1 = k) := fun e => hk e.symm
      simp [hk, this]
  | cons x xs ih =>
    obtain ⟨a, b⟩ := x
    have hak : ¬ (a = k) := by
      intro e
      simp [getOwn, e] at h
    have hrest : getOwn k xs = none := by
      simpa [getOwn, hak] using h
    have hins : getOwn k1 ((k, v) :: (a, b) :: xs)
        = if k1 = k then some v else getOwn k1 ((a, b) :: xs) := by
      by_cases hk : k = k1
      · simp [getOwn, hk]
      · have : ¬ (k1 = k) := fun e => hk e.symm
        simp [getOwn, hk, this]
    have hkeep : getOwn k1 ((a, b) :: insertProp k v xs)
        = if k1 = k then some v else getOwn k1 ((a, b) :: xs) := by
      simp only [getOwn]
      by_cases ha1 : a = k1
      · have : ¬ (k1 = k) := fun e => hak (ha1.trans e)
        simp [ha1, this]
      · simp only [ha1, if_false]
        exact ih hrest
    unfold insertProp
    split
    · split
      · exact hins
      · exact hkeep
    · exact hins
    · exact hkeep

theorem getOwn_setProp {α : Type} (k k1 : String) (v : α) (l : List (String × α)) :
    getOwn k1 (setProp k v l) = if k1 = k then some v else getOwn k1 l := by
  unfold setProp
  cases h : getOwn k l with
  | none => exact getOwn_insertProp k k1 v l h
  | some w =>
    simp only
    by_cases hk : k1 = k
    · rw [if_pos hk, hk]
      exact getOwn_mapReplace_eq k v w l h
    · rw [if_neg hk]
      exact getOwn_mapReplace_ne k k1 v l hk

theorem getOwn_setItem (k k1 v : String) (st : List (String × String)) :
    getOwn k1 (setItem k v st) = if k1 = k then some v else getOwn k1 st := by
  unfold setItem
  cases h : getOwn k st with
  | none =>
    simp only
    induction st with
    | nil =>
      simp only [List.nil_append, getOwn]
      by_cases hk : k = k1
      · simp [hk]
      · have : ¬ (k1 = k) := fun e => hk e.symm
        simp [hk, this]
    | cons x xs ih =>
      obtain ⟨a, b⟩ := x
      have hak : ¬ (a = k) := by
        intro e
        simp [getOwn, e] at h
      have hrest : getOwn k xs = none := by
        simpa [getOwn, hak] using h
      simp only [List.cons_append, getOwn]
      by_cases ha1 : a = k1
      · have : ¬ (k1 = k) := fun e => hak (ha1.trans e)
        simp [ha1, this]
      · simp only [ha1, if_false]
        exact ih hrest
  | some w =>
    simp only
    by_cases hk : k1 = k
    · rw [if_pos hk, hk]
      exact getOwn_mapReplace_eq k v w st h
    · rw [if_neg hk]
      exact getOwn_mapReplace_ne k k1 v st hk

theorem saveField_plain (d : Drafts) (extra : List (String × String)) (f : Field)
    (h : ownName extra (draftKey f).1 = true) :
    saveField (d, extra) f = (plainSave d f, extra) := by
  unfold ownName at h
  simp only [Bool.and_eq_true, Bool.not_eq_true', Option.isNone_iff_eq_none] at h
  obtain ⟨h1, h2⟩ := h
  have hq : (draftKey f).1 = f.question.getD "" := rfl
  have hs : (draftKey f).2 = f.sectionId.getD "null" := rfl
  unfold saveField plainSave
  rw [← hq, ← hs]
  dsimp only
  cases hd : getOwn (draftKey f).1 d with
  | some inner => rfl
  | none =>
    dsimp only
    rw [h2]
    dsimp only
    have hne : ¬ ((draftKey f).1 = "__proto__") := by
      intro e
      rw [e] at h1
      exact absurd h1 (by decide)
    rw [if_neg hne, h1]
    rfl

theorem foldl_saveField_plain (l : List Field) (d : Drafts) (extra : List (String × String))
    (h : ∀ g ∈ l, ownName extra (draftKey g).1 = true) :
    l.foldl saveField (d, extra) = (l.foldl plainSave d, extra) := by
  induction l generalizing d with
  | nil => rfl
  | cons x xs ih =>
    rw [List.foldl_cons, List.foldl_cons, saveField_plain d extra x (h x (List.mem_cons_self _ _))]
    exact ih _ (fun g hg => h g (List.mem_cons_of_mem _ hg))

theorem builtDrafts_plain (s : PracticeState)
    (h : ∀ g ∈ practiceFields s.fields, ownName s.protoExtra (draftKey g).1 = true) :
    builtDrafts s = (practiceFields s.fields).foldl plainSave [] := by
  unfold builtDrafts
  rw [foldl_saveField_plain _ _ _ h]

theorem draftText_plainSave (d : Drafts) (f : Field) (q sec : String) :
    draftText (plainSave d f) q sec =
      if draftKey f = (q, sec) ∧ sec ≠ "__proto__" then some f.value else draftText d q sec := by
  unfold draftText plainSave
  rw [getOwn_setProp]
  by_cases hq : q = (draftKey f).1
  · rw [if_pos hq]
    rw [Option.some_bind]
    unfold assignSection
    by_cases hp : (draftKey f).2 = "__proto__"
    · rw [if_pos hp]
      have hne : ¬ (draftKey f = (q, sec) ∧ sec ≠ "__proto__") := by
        rintro ⟨h1, h2⟩
        rw [h1] at hp
        exact h2 hp
      rw [if_neg hne, hq]
      cases getOwn (draftKey f).1 d <;> rfl
    · rw [if_neg hp, getOwn_setProp]
      by_cases hs : sec = (draftKey f).2
      · have hk : draftKey f = (q, sec) ∧ sec ≠ "__proto__" := by
          refine ⟨?_, by rw [hs]; exact hp⟩
          rw [hq, hs]
        rw [if_pos hs, if_pos hk]
      · have hk : ¬ (draftKey f = (q, sec) ∧ sec ≠ "__proto__") := by
          rintro ⟨h1, _⟩
          rw [h1] at hs
          exact hs rfl
        rw [if_neg hs, if_neg hk, hq]
        cases getOwn (draftKey f).1 d <;> rfl
  · rw [if_neg hq]
    have hk : ¬ (draftKey f = (q, sec) ∧ sec ≠ "__proto__") := by
      rintro ⟨h1, _⟩
      rw [h1] at hq
      exact hq rfl
    rw [if_neg hk]

/-- Every text of the object built comes from the start object or from a field. -/
theorem draftText_foldl_source (l : List Field) (d : Drafts) (q sec x : String)
    (h : draftText (l.foldl plainSave d) q sec = some x) :
    draftText d q sec = some x ∨ ∃ g ∈ l, draftKey g = (q, sec) ∧ g.value = x := by
  induction l generalizing d with
  | nil => exact Or.inl h
  | cons y ys ih =>
    rw [List.foldl_cons] at h
    rcases ih _ h with h1 | ⟨g, hg, hk, hv⟩
    · rw [draftText_plainSave] at h1
      by_cases hc : draftKey y = (q, sec) ∧ sec ≠ "__proto__"
      · rw [if_pos hc] at h1
        exact Or.inr ⟨y, List.mem_cons_self _ _, hc.1, Option.some.inj h1⟩
      · rw [if_neg hc] at h1
        exact Or.inl h1
    · exact Or.inr ⟨g, List.mem_cons_of_mem _ hg, hk, hv⟩

/-- The object built holds the text of a field stored under a key when every
field stored under that key holds the same text. -/
theorem draftText_foldl_target (l : List Field) (d : Drafts) (q sec t : String)
    (hsec : sec ≠ "__proto__")
    (hmem : (∃ g ∈ l, draftKey g = (q, sec)) ∨ draftText d q sec = some t)
    (hall : ∀ g ∈ l, draftKey g = (q, sec) → g.value = t) :
    draftText (l.foldl plainSave d) q sec = some t := by
  induction l generalizing d with
  | nil =>
    rcases hmem with ⟨g, hg, _⟩ | h
    · simp at hg
    · exact h
  | cons y ys ih =>
    rw [List.foldl_cons]
    apply ih
    · by_cases hy : draftKey y = (q, sec)
      · right
        rw [draftText_plainSave, if_pos ⟨hy, hsec⟩, hall y (List.mem_cons_self _ _) hy]
      · rcases hmem with ⟨g, hg, hk⟩ | h
        · rcases List.mem_cons.mp hg with e | hg1
          · rw [e] at hk
            exact absurd hk hy
          · exact Or.inl ⟨g, hg1, hk⟩
        · right
          rw [draftText_plainSave, if_neg (fun hc => hy hc.1)]
          exact h
    · exact fun g hg => hall g (List.mem_cons_of_mem _ hg)

theorem jsToSections_map (l : List (String × String)) :
    jsToSections (l.map (fun e => (e.1, JsVal.str e.2))) = some l := by
  induction l with
  | nil => rfl
  | cons x xs ih =>
    obtain ⟨a, b⟩ := x
    simp only [List.map_cons, jsToSections, ih, Option.map_some']

theorem jsToDrafts_draftsToJs (d : Drafts) : jsToDrafts (draftsToJs d) = some d := by
  unfold draftsToJs jsToDrafts
  induction d with
  | nil => rfl
  | cons x xs ih =>
    obtain ⟨a, b⟩ := x
    simp only at ih
    simp only [List.map_cons, jsToQuestions, jsToSections_map, ih]

theorem persisted_saveDrafts (P : Platform) (s : PracticeState) :
    getOwn STORAGE_KEY (saveDrafts P s).localStorage
      = some (P.stringify (draftsToJs (builtDrafts s))) := by
  unfold saveDrafts
  simp only
  rw [getOwn_setItem, if_pos rfl]

theorem storedText_saveDrafts (P : Platform) (s : PracticeState) (q sec : String)
    (hrt : P.parse (P.stringify (draftsToJs (builtDrafts s))) = some (draftsToJs (builtDrafts s))) :
    storedText P (saveDrafts P s) q sec = draftText (builtDrafts s) q sec := by
  unfold storedText persisted
  rw [persisted_saveDrafts, Option.some_bind, hrt, Option.some_bind, jsToDrafts_draftsToJs,
    Option.some_bind]

/-- C5 (as stated, refuted): the stored drafts hold `q2/result`, whose field is
not in the view; a save fired for the field `q1/situation` stores that field and
drops the entry `q2/result`. -/
theorem C5_save_drops_entries_outside_view :
    storedText samplePlatform otherViewSession "q2" "result" = some "Shipped on time" ∧
    storedText samplePlatform (saveDrafts samplePlatform otherViewSession) "q1" "situation"
      = some "Led the migration" ∧
    storedText samplePlatform (saveDrafts samplePlatform otherViewSession) "q2" "result" = none := by
  decide

/-- C5 (amended): a fired save rebuilds the persisted store from the view.  For a
field of `#practice textarea[data-question]` stored under `(q, s)`, `s` not
`__proto__`, in a view whose question ids are own names and where every field
stored under `(q, s)` holds the field's text, the persisted store afterwards
maps `(q, s)` to that text, and every entry of the persisted store afterwards is
the text of a field of the view: nothing of the store before the save is kept. -/
theorem C5_save_rebuilds (P : Platform) (s : PracticeState) (f : Field) (q sec : String)
    (hplain : ∀ g ∈ practiceFields s.fields, ownName s.protoExtra (draftKey g).1 = true)
    (hf : f ∈ practiceFields s.fields) (hkey : draftKey f = (q, sec))
    (hsec : sec ≠ "__proto__")
    (huniq : ∀ g ∈ practiceFields s.fields, draftKey g = (q, sec) → g.value = f.value)
    (hrt : P.parse (P.stringify (draftsToJs (builtDrafts s))) = some (draftsToJs (builtDrafts s))) :
    storedText P (saveDrafts P s) q sec = some f.value ∧
    (∀ q1 s1 x, storedText P (saveDrafts P s) q1 s1 = some x →
      ∃ g ∈ practiceFields s.fields, draftKey g = (q1, s1) ∧ g.value = x) := by
  constructor
  · rw [storedText_saveDrafts P s q sec hrt, builtDrafts_plain s hplain]
    exact draftText_foldl_target _ [] q sec f.value hsec (Or.inl ⟨f, hf, hkey⟩) huniq
  · intro q1 s1 x hx
    rw [storedText_saveDrafts P s q1 s1 hrt, builtDrafts_plain s hplain] at hx
    rcases draftText_foldl_source _ [] q1 s1 x hx with h | h
    · simp [draftText, getOwn] at h
    · exact h

/-- Witness of `C5_save_rebuilds` on `otherViewSession`. -/
theorem C5_save_rebuilds_witness :
    storedText samplePlatform (saveDrafts samplePlatform otherViewSession) "q1" "situation"
      = some "Led the migration" :=
  (C5_save_rebuilds samplePlatform otherViewSession (mkField "q1" "situation" "Led the migration")
    "q1" "situation" (by decide) (by decide) (by decide) (by decide) (by decide) (by rfl)).1

theorem getOwn_map_val {α β : Type} (g : α → β) (k : String) (l : List (String × α)) :
    getOwn k (l.map (fun p => (p.1, g p.2))) = (getOwn k l).map g := by
  induction l with
  | nil => rfl
  | cons x xs ih =>
    obtain ⟨a, b⟩ := x
    rw [List.map_cons, getOwn_cons, getOwn_cons, ih]
    by_cases h : a = k
    · rw [if_pos h, if_pos h]; rfl
    · rw [if_neg h, if_neg h]

theorem getOwn_mem {α : Type} (k : String) (v : α) (l : List (String × α))
    (h : getOwn k l = some v) : (k, v) ∈ l := by
  induction l with
  | nil => simp [getOwn] at h
  | cons x xs ih =>
    obtain ⟨a, b⟩ := x
    rw [getOwn_cons] at h
    by_cases hk : a = k
    · rw [if_pos hk] at h
      rw [hk, Option.some.inj h]
      exact List.mem_cons_self _ _
    · rw [if_neg hk] at h
      exact List.mem_cons_of_mem _ (ih h)

theorem getOwn_of_key_mem {α : Type} (k : String) (l : List (String × α))
    (h : k ∈ l.map (fun p => p.1)) : ∃ v, getOwn k l = some v := by
  induction l with
  | nil => simp at h
  | cons x xs ih =>
    obtain ⟨a, b⟩ := x
    rw [getOwn_cons]
    by_cases hk : a = k
    · exact ⟨b, by rw [if_pos hk]⟩
    · rw [if_neg hk]
      rw [List.map_cons] at h
      rcases List.mem_cons.mp h with e | h1
      · exact absurd e.symm hk
      · exact ih h1

theorem firstIdx_none_modifyFirst {α : Type} (p : α → Bool) (f : α → α) (l : List α)
    (h : firstIdx p l = none) : modifyFirst p f l = l := by
  have := modifyAt_firstIdx p f l
  rw [h] at this
  exact this.symm

theorem firstIdx_some_modifyAt {α : Type} (p : α → Bool) (f : α → α) (l : List α) (i : Nat)
    (h : firstIdx p l = some i) : modifyAt f i l = modifyFirst p f l := by
  have := modifyAt_firstIdx p f l
  rw [h] at this
  exact this

theorem getProp_sections (inner : List (String × String)) (sec : String) :
    getProp (JsVal.obj (inner.map (fun e => (e.1, JsVal.str e.2)))) sec
      = (getOwn sec inner).map JsVal.str := by
  show getOwn sec (inner.map (fun e => (e.1, JsVal.str e.2))) = _
  exact getOwn_map_val JsVal.str sec inner

theorem getProp_draftsToJs (d : Drafts) (q : String) :
    getProp (draftsToJs d) q
      = (getOwn q d).map (fun inner => JsVal.obj (inner.map (fun e => (e.1, JsVal.str e.2)))) := by
  show getOwn q (d.map (fun p => (p.1, JsVal.obj (p.2.map (fun e => (e.1, JsVal.str e.2)))))) = _
  exact getOwn_map_val (fun inner => JsVal.obj (inner.map (fun e => (e.1, JsVal.str e.2)))) q d

/-- On string entries with `cssSafe` ids the inner loop of `loadDrafts` ends
without an exception and is `fillSections`. -/
theorem loadSections_fill (P : Platform) (extra : List (String × String)) (q : String)
    (inner : List (String × String)) (secs : List String) (fs : List Field)
    (hq : cssSafe q = true)
    (hs : ∀ sec ∈ secs, cssSafe sec = true ∧ ∃ x, getOwn sec inner = some x) :
    loadSections P extra q (JsVal.obj (inner.map (fun e => (e.1, JsVal.str e.2)))) secs fs
      = (fillSections q inner secs fs, none) := by
  induction secs generalizing fs with
  | nil => rfl
  | cons sec rest ih =>
    obtain ⟨hsafe, x, hx⟩ := hs sec (List.mem_cons_self _ _)
    have ih1 := fun fs1 => ih fs1 (fun y hy => hs y (List.mem_cons_of_mem _ hy))
    have hquery : queryDraftField P fs q sec = .ok (firstIdx (matchIds q sec) fs) := by
      unfold queryDraftField
      rw [hq, hsafe]
      rfl
    unfold loadSections
    rw [hquery]
    unfold fillSections
    rw [List.foldl_cons, hx]
    cases hf : firstIdx (matchIds q sec) fs with
    | none =>
      dsimp only
      rw [firstIdx_none_modifyFirst _ _ _ hf]
      exact ih1 fs
    | some i =>
      dsimp only
      rw [getProp_sections, hx]
      dsimp only [Option.map_some', toStr, Option.getD_some]
      rw [firstIdx_some_modifyAt _ _ _ _ hf]
      exact ih1 _

theorem safeStore_mem (d : Drafts) (h : safeStore d = true) (q : String)
    (inner : List (String × String)) (hm : (q, inner) ∈ d) :
    cssSafe q = true ∧ ∀ e ∈ inner, cssSafe e.1 = true := by
  unfold safeStore at h
  rw [List.all_eq_true] at h
  have := h (q, inner) hm
  simp only [Bool.and_eq_true, List.all_eq_true] at this
  exact this

/-- On a drafts object with `cssSafe` ids the outer loop of `loadDrafts` ends
without an exception and is `fillQuestions`. -/
theorem loadQuestions_fill (P : Platform) (extra : List (String × String)) (d : Drafts)
    (keys : List String) (fs : List Field) (hsafe : safeStore d = true)
    (hk : ∀ q ∈ keys, ∃ inner, getOwn q d = some inner) :
    loadQuestions P extra (draftsToJs d) keys fs = (fillQuestions d keys fs, none) := by
  induction keys generalizing fs with
  | nil => rfl
  | cons q rest ih =>
    obtain ⟨inner, hinner⟩ := hk q (List.mem_cons_self _ _)
    have ih1 := fun fs1 => ih fs1 (fun y hy => hk y (List.mem_cons_of_mem _ hy))
    have hs := safeStore_mem d hsafe q inner (getOwn_mem q inner d hinner)
    have hsecs : ∀ sec ∈ inner.map (fun e => e.1),
        cssSafe sec = true ∧ ∃ x, getOwn sec inner = some x := by
      intro sec hsec
      refine ⟨?_, getOwn_of_key_mem sec inner hsec⟩
      obtain ⟨e, he, hes⟩ := List.mem_map.mp hsec
      rw [← hes]
      exact hs.2 e he
    unfold loadQuestions
    rw [getProp_draftsToJs, hinner]
    have hkeys : ownKeys (JsVal.obj (inner.map (fun e => (e.1, JsVal.str e.2))))
        = some (inner.map (fun e => e.1)) := by
      show some ((inner.map (fun e => (e.1, JsVal.str e.2))).map (fun p => p.1)) = _
      rw [List.map_map]
      rfl
    dsimp only [Option.map_some', Option.some_bind]
    rw [hkeys]
    dsimp only
    rw [loadSections_fill P extra q inner _ fs hs.1 hsecs]
    dsimp only
    unfold fillQuestions
    rw [List.foldl_cons, hinner]
    exact ih1 _

/-- Loading a stored drafts object with `cssSafe` ids fills the fields and
raises nothing. -/
theorem loadDrafts_fill (P : Platform) (s : PracticeState) (blob : String) (d : Drafts)
    (hstore : getOwn STORAGE_KEY s.localStorage = some blob) (hne : blob ≠ "")
    (hparse : P.parse blob = some (draftsToJs d)) (hsafe : safeStore d = true) :
    loadDrafts P s
      = .ok { s with fields := fillQuestions d (d.map (fun p => p.1)) s.fields } := by
  unfold loadDrafts
  rw [hstore]
  dsimp only
  rw [if_neg hne]
  unfold loadDraftsTry
  rw [hparse]
  have hkeys : ownKeys (draftsToJs d) = some (d.map (fun p => p.1)) := by
    show some ((d.map (fun p => (p.1, JsVal.obj (p.2.map (fun e => (e.1, JsVal.str e.2)))))).map
      (fun p => p.1)) = _
    rw [List.map_map]
    rfl
  dsimp only
  rw [hkeys]
  dsimp only
  rw [loadQuestions_fill P s.protoExtra d _ s.fields hsafe
    (fun q hq => getOwn_of_key_mem q d hq)]

theorem get?_modifyFirst_first {α : Type} (p : α → Bool) (f : α → α) (l : List α) (i : Nat)
    (h : firstIdx p l = some i) : (modifyFirst p f l).get? i = (l.get? i).map f := by
  induction l generalizing i with
  | nil => simp [firstIdx] at h
  | cons x xs ih =>
    unfold firstIdx at h
    unfold modifyFirst
    by_cases hp : p x = true
    · rw [if_pos hp] at h
      rw [if_pos hp, ← Option.some.inj h]
      rfl
    · rw [if_neg hp] at h
      rw [if_neg hp]
      cases hf : firstIdx p xs with
      | none => rw [hf] at h; simp at h
      | some k =>
        rw [hf] at h
        have hi : i = k + 1 := by simpa using h.symm
        subst hi
        exact ih k hf

theorem get?_modifyFirst_other {α : Type} (p : α → Bool) (f : α → α) (l : List α) (k : Nat)
    (x : α) (h : l.get? k = some x) (hp : p x = false) : (modifyFirst p f l).get? k = some x := by
  induction l generalizing k with
  | nil => simp at h
  | cons y ys ih =>
    unfold modifyFirst
    cases k with
    | zero =>
      have hy : y = x := by simpa using h
      subst hy
      rw [hp]
      rfl
    | succ k =>
      have h1 : ys.get? k = some x := by simpa using h
      by_cases hy : p y = true
      · rw [if_pos hy]
        simpa using h1
      · rw [if_neg hy]
        simpa using ih k h1

theorem firstIdx_modifyFirst {α : Type} (T p : α → Bool) (f : α → α) (l : List α)
    (hT : ∀ x, T (f x) = T x) : firstIdx T (modifyFirst p f l) = firstIdx T l := by
  induction l with
  | nil => rfl
  | cons y ys ih =>
    unfold modifyFirst
    by_cases hy : p y = true
    · rw [if_pos hy]
      unfold firstIdx
      rw [hT]
    · rw [if_neg hy]
      unfold firstIdx
      rw [ih]

theorem firstIdx_some_get? {α : Type} (p : α → Bool) (l : List α) (i : Nat)
    (h : firstIdx p l = some i) : ∃ x, l.get? i = some x ∧ p x = true := by
  induction l generalizing i with
  | nil => simp [firstIdx] at h
  | cons y ys ih =>
    unfold firstIdx at h
    by_cases hy : p y = true
    · rw [if_pos hy] at h
      rw [← Option.some.inj h]
      exact ⟨y, rfl, hy⟩
    · rw [if_neg hy] at h
      cases hf : firstIdx p ys with
      | none => rw [hf] at h; simp at h
      | some k =>
        rw [hf] at h
        have hi : i = k + 1 := by simpa using h.symm
        subst hi
        obtain ⟨x, hx, hpx⟩ := ih k hf
        exact ⟨x, by simpa using hx, hpx⟩

theorem matchIds_setValue (q sec txt : String) (f : Field) :
    matchIds q sec (f.setValue txt) = matchIds q sec f := rfl

theorem matchIds_both (q sec q1 sec1 : String) (f : Field)
    (h : matchIds q sec f = true) (h1 : matchIds q1 sec1 f = true) : q1 = q ∧ sec1 = sec := by
  unfold matchIds at h h1
  simp only [Bool.and_eq_true, beq_iff_eq] at h h1
  rw [h.1] at h1
  rw [h.2] at h1
  exact ⟨(Option.some.inj h1.1).symm, (Option.some.inj h1.2).symm⟩

theorem fillSections_cons (q1 : String) (inner : List (String × String)) (s1 : String)
    (rest : List String) (fs : List Field) :
    fillSections q1 inner (s1 :: rest) fs
      = fillSections q1 inner rest
          (modifyFirst (matchIds q1 s1) (Field.setValue ((getOwn s1 inner).getD "")) fs) := rfl

theorem fillQuestions_cons (d : Drafts) (q1 : String) (rest : List String) (fs : List Field) :
    fillQuestions d (q1 :: rest) fs
      = fillQuestions d rest
          (fillSections q1 ((getOwn q1 d).getD [])
            (((getOwn q1 d).getD []).map (fun e => e.1)) fs) := rfl

/-- The field `querySelector` finds for `(q, sec)` after the inner loop for the
question `q1`: it holds the stored text when the loop met `(q, sec)`, and what it
held before otherwise. -/
theorem fillSections_target (q sec q1 : String) (inner : List (String × String))
    (secs : List String) (fs : List Field) (j : Nat)
    (hj : firstIdx (matchIds q sec) fs = some j) :
    firstIdx (matchIds q sec) (fillSections q1 inner secs fs) = some j ∧
    ((fillSections q1 inner secs fs).get? j).map (fun g => g.value)
      = if q1 = q ∧ sec ∈ secs then some ((getOwn sec inner).getD "")
        else (fs.get? j).map (fun g => g.value) := by
  induction secs generalizing fs with
  | nil =>
    refine ⟨hj, ?_⟩
    rw [if_neg (fun h => by simpa using h.2)]
    rfl
  | cons s1 rest ih =>
    rw [fillSections_cons]
    have hj1 : firstIdx (matchIds q sec)
        (modifyFirst (matchIds q1 s1) (Field.setValue ((getOwn s1 inner).getD "")) fs) = some j := by
      rw [firstIdx_modifyFirst _ _ _ _ (matchIds_setValue q sec _)]
      exact hj
    obtain ⟨ih1, ih2⟩ := ih _ hj1
    refine ⟨ih1, ?_⟩
    rw [ih2]
    obtain ⟨x, hx, hTx⟩ := firstIdx_some_get? _ _ _ hj
    by_cases hq : q1 = q
    · subst hq
      by_cases hs : s1 = sec
      · subst hs
        rw [get?_modifyFirst_first _ _ _ _ hj, hx]
        by_cases hr : s1 ∈ rest
        · rw [if_pos ⟨rfl, hr⟩, if_pos ⟨rfl, List.mem_cons_of_mem _ hr⟩]
        · rw [if_neg (fun h => hr h.2), if_pos ⟨rfl, List.mem_cons_self _ _⟩]
          rfl
      · have hm : matchIds q1 s1 x = false := by
          cases hc : matchIds q1 s1 x with
          | false => rfl
          | true => exact absurd (matchIds_both q1 sec q1 s1 x hTx hc).2 hs
        rw [get?_modifyFirst_other _ _ _ _ _ hx hm, hx]
        by_cases hr : sec ∈ rest
        · rw [if_pos ⟨rfl, hr⟩, if_pos ⟨rfl, List.mem_cons_of_mem _ hr⟩]
        · have hr1 : ¬ (sec ∈ s1 :: rest) := by
            intro h
            rcases List.mem_cons.mp h with e | e
            · exact hs e.symm
            · exact hr e
          rw [if_neg (fun h => hr h.2), if_neg (fun h => hr1 h.2)]
    · have hm : matchIds q1 s1 x = false := by
        cases hc : matchIds q1 s1 x with
        | false => rfl
        | true => exact absurd (matchIds_both q sec q1 s1 x hTx hc).1 hq
      rw [get?_modifyFirst_other _ _ _ _ _ hx hm, hx, if_neg (fun h => hq h.1),
        if_neg (fun h => hq h.1)]

/-- The field `querySelector` finds for `(q, sec)` after the loops of `loadDrafts`. -/
theorem fillQuestions_target (d : Drafts) (q sec : String) (keys : List String)
    (fs : List Field) (j : Nat) (hj : firstIdx (matchIds q sec) fs = some j) :
    firstIdx (matchIds q sec) (fillQuestions d keys fs) = some j ∧
    ((fillQuestions d keys fs).get? j).map (fun g => g.value)
      = if q ∈ keys ∧ sec ∈ ((getOwn q d).getD []).map (fun e => e.1)
        then some ((getOwn sec ((getOwn q d).getD [])).getD "")
        else (fs.get? j).map (fun g => g.value) := by
  induction keys generalizing fs with
  | nil =>
    refine ⟨hj, ?_⟩
    rw [if_neg (fun h => by simpa using h.1)]
    rfl
  | cons q1 rest ih =>
    rw [fillQuestions_cons]
    obtain ⟨h1, h2⟩ := fillSections_target q sec q1 ((getOwn q1 d).getD [])
      (((getOwn q1 d).getD []).map (fun e => e.1)) fs j hj
    obtain ⟨ih1, ih2⟩ := ih _ h1
    refine ⟨ih1, ?_⟩
    rw [ih2, h2]
    by_cases hs : sec ∈ ((getOwn q d).getD []).map (fun e => e.1)
    · by_cases hr : q ∈ rest
      · rw [if_pos ⟨hr, hs⟩, if_pos ⟨List.mem_cons_of_mem _ hr, hs⟩]
      · rw [if_neg (fun h => hr h.1)]
        by_cases hq : q1 = q
        · subst hq
          rw [if_pos ⟨rfl, hs⟩, if_pos ⟨List.mem_cons_self _ _, hs⟩]
        · have hr1 : ¬ (q ∈ q1 :: rest) := by
            intro h
            rcases List.mem_cons.mp h with e | e
            · exact hq e.symm
            · exact hr e
          rw [if_neg (fun h => hq h.1), if_neg (fun h => hr1 h.1)]
    · have hn1 : ¬ (q1 = q ∧ sec ∈ ((getOwn q1 d).getD []).map (fun e => e.1)) := by
        rintro ⟨e, h⟩
        rw [e] at h
        exact hs h
      rw [if_neg (fun h => hs h.2), if_neg hn1, if_neg (fun h => hs h.2)]

theorem fillSections_frame (q1 : String) (inner : List (String × String))
    (secs : List String) (fs : List Field) (k : Nat) (x : Field)
    (h : fs.get? k = some x) (hx : x.question ≠ some q1) :
    (fillSections q1 inner secs fs).get? k = some x := by
  induction secs generalizing fs with
  | nil => exact h
  | cons s1 rest ih =>
    rw [fillSections_cons]
    apply ih
    apply get?_modifyFirst_other _ _ _ _ _ h
    unfold matchIds
    have : (x.question == some q1) = false := by simpa using hx
    rw [this]
    rfl

/-- The loops of `loadDrafts` leave alone a field whose question id is none of
the question keys. -/
theorem fillQuestions_frame (d : Drafts) (keys : List String) (fs : List Field) (k : Nat)
    (x : Field) (h : fs.get? k = some x) (hx : ∀ q1 ∈ keys, x.question ≠ some q1) :
    (fillQuestions d keys fs).get? k = some x := by
  induction keys generalizing fs with
  | nil => exact h
  | cons q1 rest ih =>
    rw [fillQuestions_cons]
    apply ih
    · exact fillSections_frame q1 _ _ fs k x h (hx q1 (List.mem_cons_self _ _))
    · exact fun q2 hq2 => hx q2 (List.mem_cons_of_mem _ hq2)

theorem mem_insertProp {α : Type} (k : String) (v : α) (l : List (String × α))
    (p : String × α) (h : p ∈ insertProp k v l) : p = (k, v) ∨ p ∈ l := by
  induction l with
  | nil =>
    left
    simpa [insertProp] using h
  | cons x xs ih =>
    obtain ⟨a, b⟩ := x
    have hins : p ∈ (k, v) :: (a, b) :: xs → p = (k, v) ∨ p ∈ (a, b) :: xs :=
      fun h1 => List.mem_cons.mp h1
    have hkeep : p ∈ (a, b) :: insertProp k v xs → p = (k, v) ∨ p ∈ (a, b) :: xs := by
      intro h1
      rcases List.mem_cons.mp h1 with e | e
      · exact Or.inr (e ▸ List.mem_cons_self _ _)
      · rcases ih e with e1 | e1
        · exact Or.inl e1
        · exact Or.inr (List.mem_cons_of_mem _ e1)
    unfold insertProp at h
    split at h
    · split at h
      · exact hins h
      · exact hkeep h
    · exact hins h
    · exact hkeep h

theorem mem_setProp {α : Type} (k : String) (v : α) (l : List (String × α))
    (p : String × α) (h : p ∈ setProp k v l) : p = (k, v) ∨ p ∈ l := by
  unfold setProp at h
  split at h
  · obtain ⟨p0, hp0, e⟩ := List.mem_map.mp h
    by_cases hk : p0.1 = k
    · rw [if_pos hk] at e
      exact Or.inl e.symm
    · rw [if_neg hk] at e
      exact Or.inr (e ▸ hp0)
  · exact mem_insertProp k v l p h

theorem safeStore_iff (d : Drafts) :
    safeStore d = true ↔ ∀ p ∈ d, cssSafe p.1 = true ∧ ∀ e ∈ p.2, cssSafe e.1 = true := by
  unfold safeStore
  simp only [List.all_eq_true, Bool.and_eq_true]

theorem safeStore_plainSave (d : Drafts) (f : Field) (hd : safeStore d = true)
    (h1 : cssSafe (draftKey f).1 = true) (h2 : cssSafe (draftKey f).2 = true) :
    safeStore (plainSave d f) = true := by
  rw [safeStore_iff] at hd ⊢
  intro p hp
  unfold plainSave at hp
  rcases mem_setProp _ _ _ _ hp with e | e
  · rw [e]
    refine ⟨h1, ?_⟩
    intro x hx
    dsimp only at hx
    have hold : ∀ y ∈ (getOwn (draftKey f).1 d).getD [], cssSafe y.1 = true := by
      intro y hy
      cases hg : getOwn (draftKey f).1 d with
      | none => rw [hg] at hy; simp at hy
      | some inner =>
        rw [hg] at hy
        exact (hd _ (getOwn_mem _ _ _ hg)).2 y hy
    unfold assignSection at hx
    by_cases hp : (draftKey f).2 = "__proto__"
    · rw [if_pos hp] at hx
      exact hold x hx
    · rw [if_neg hp] at hx
      rcases mem_setProp _ _ _ _ hx with e1 | e1
      · rw [e1]
        exact h2
      · exact hold x e1
  · exact hd p e

theorem safeStore_foldl (l : List Field) (d : Drafts) (hd : safeStore d = true)
    (h : ∀ g ∈ l, cssSafe (draftKey g).1 = true ∧ cssSafe (draftKey g).2 = true) :
    safeStore (l.foldl plainSave d) = true := by
  induction l generalizing d with
  | nil => exact hd
  | cons x xs ih =>
    rw [List.foldl_cons]
    apply ih
    · exact safeStore_plainSave d x hd (h x (List.mem_cons_self _ _)).1
        (h x (List.mem_cons_self _ _)).2
    · exact fun g hg => h g (List.mem_cons_of_mem _ hg)

theorem draftText_keys (d : Drafts) (q sec t : String) (h : draftText d q sec = some t) :
    q ∈ d.map (fun p => p.1) ∧ sec ∈ ((getOwn q d).getD []).map (fun e => e.1) ∧
    (getOwn sec ((getOwn q d).getD [])).getD "" = t := by
  unfold draftText at h
  cases hq : getOwn q d with
  | none => rw [hq] at h; simp at h
  | some inner =>
    rw [hq, Option.some_bind] at h
    refine ⟨List.mem_map.mpr ⟨(q, inner), getOwn_mem _ _ _ hq, rfl⟩, ?_, ?_⟩
    · exact List.mem_map.mpr ⟨(sec, t), getOwn_mem _ _ _ h, rfl⟩
    · simp only [Option.getD_some, h]

/-- C4 (as stated, refuted): a field whose question id holds a double quote, or is
`constructor`, is saved and then, in a fresh session on the same page with the
field empty, still empty after `loadDrafts`: the text is not reproduced. -/
theorem C4_round_trip_fails_for_some_ids :
    textsAfter (.ok quotedIdSession) = some ["Led the migration"] ∧
    textsAfter (loadDrafts samplePlatform (freshSession (saveDrafts samplePlatform quotedIdSession)))
      = some [""] ∧
    textsAfter (.ok inheritedIdSession) = some ["Led the migration"] ∧
    textsAfter
        (loadDrafts samplePlatform (freshSession (saveDrafts samplePlatform inheritedIdSession)))
      = some [""] := by
  decide

/-- C4 (amended): round trip of drafts for plain ids.  In a view whose fields of
`#practice textarea[data-question]` carry question ids that are own names and
ids that are `cssSafe`, for a field carrying the question id `q` and the section
id `s`, `s` not `__proto__`, every field stored under `(q, s)` holding its text:
a save fired with that text, followed by `loadDrafts` in a session that reads the
persisted string and whose first textarea with the ids `(q, s)` is at position
`j`, returns normally and leaves exactly that text in the field at `j`. -/
theorem C4_round_trip (P : Platform) (s fresh : PracticeState) (f : Field) (q sec : String)
    (j : Nat)
    (hplain : ∀ g ∈ practiceFields s.fields, ownName s.protoExtra (draftKey g).1 = true)
    (hsafe : ∀ g ∈ practiceFields s.fields,
      cssSafe (draftKey g).1 = true ∧ cssSafe (draftKey g).2 = true)
    (hf : f ∈ practiceFields s.fields) (hq : f.question = some q) (hs : f.sectionId = some sec)
    (hsec : sec ≠ "__proto__")
    (huniq : ∀ g ∈ practiceFields s.fields, draftKey g = (q, sec) → g.value = f.value)
    (hrt : P.parse (P.stringify (draftsToJs (builtDrafts s))) = some (draftsToJs (builtDrafts s)))
    (hne : P.stringify (draftsToJs (builtDrafts s)) ≠ "")
    (hstore : getOwn STORAGE_KEY fresh.localStorage
      = getOwn STORAGE_KEY (saveDrafts P s).localStorage)
    (hj : firstIdx (matchIds q sec) fresh.fields = some j) :
    ∃ s3, loadDrafts P fresh = .ok s3 ∧
      (s3.fields.get? j).map (fun g => g.value) = some f.value := by
  have hkey : draftKey f = (q, sec) := by
    unfold draftKey
    rw [hq, hs]
    rfl
  have hbuilt := builtDrafts_plain s hplain
  have htext : draftText (builtDrafts s) q sec = some f.value := by
    rw [hbuilt]
    exact draftText_foldl_target _ [] q sec f.value hsec (Or.inl ⟨f, hf, hkey⟩) huniq
  have hsafeD : safeStore (builtDrafts s) = true := by
    rw [hbuilt]
    exact safeStore_foldl _ [] rfl hsafe
  rw [persisted_saveDrafts] at hstore
  refine ⟨_, loadDrafts_fill P fresh _ (builtDrafts s) hstore hne hrt hsafeD, ?_⟩
  obtain ⟨h1, h2, h3⟩ := draftText_keys _ _ _ _ htext
  have := (fillQuestions_target (builtDrafts s) q sec
    ((builtDrafts s).map (fun p => p.1)) fresh.fields j hj).2
  rw [if_pos ⟨h1, h2⟩, h3] at this
  exact this

/-- Witness of `C4_round_trip`: the two fields of `filledSession` are saved and
loaded in a fresh session; the field `q1/task` holds its text again. -/
theorem C4_round_trip_witness :
    ∃ s3, loadDrafts samplePlatform (freshSession (saveDrafts samplePlatform filledSession))
        = .ok s3 ∧
      (s3.fields.get? 1).map (fun g => g.value) = some "Cut the downtime" :=
  C4_round_trip samplePlatform filledSession
    (freshSession (saveDrafts samplePlatform filledSession))
    (mkField "q1" "task" "Cut the downtime") "q1" "task" 1
    (by decide) (by decide) (by decide) rfl rfl (by decide) (by decide) (by rfl) (by decide)
    (by decide) (by decide)

theorem getOwn_filter_ne {α : Type} (q k : String) (l : List (String × α)) :
    getOwn k (l.filter (fun p => p.1 != q)) = if k = q then none else getOwn k l := by
  induction l with
  | nil => simp [getOwn]
  | cons x xs ih =>
    obtain ⟨a, b⟩ := x
    by_cases ha : a = q
    · rw [List.filter_cons_of_neg (by simpa using ha), ih]
      by_cases hk : k = q
      · rw [if_pos hk, if_pos hk]
      · rw [if_neg hk, if_neg hk, getOwn_cons, if_neg (fun e => hk (e.symm.trans ha))]
    · rw [List.filter_cons_of_pos (by simpa using ha), getOwn_cons, getOwn_cons, ih]
      by_cases hk : a = k
      · rw [if_pos hk, if_pos hk, if_neg (fun e => ha (hk.trans e))]
      · rw [if_neg hk, if_neg hk]

theorem filter_ne_self {α : Type} (q : String) (l : List (String × α))
    (h : getOwn q l = none) : l.filter (fun p => p.1 != q) = l := by
  induction l with
  | nil => rfl
  | cons x xs ih =>
    obtain ⟨a, b⟩ := x
    rw [getOwn_cons] at h
    by_cases ha : a = q
    · rw [if_pos ha] at h
      exact absurd h (by simp)
    · rw [if_neg ha] at h
      rw [List.filter_cons_of_pos (by simpa using ha), ih h]

theorem deleteProp_draftsToJs (d : Drafts) (q : String) :
    deleteProp (draftsToJs d) q = some (draftsToJs (d.filter (fun p => p.1 != q))) := by
  unfold draftsToJs deleteProp
  simp only [List.filter_map, Option.some.injEq, JsVal.obj.injEq]
  rfl

theorem map_modifyFirst {α β : Type} (g : α → β) (p : α → Bool) (f : α → α) (l : List α)
    (h : ∀ x, g (f x) = g x) : (modifyFirst p f l).map g = l.map g := by
  induction l with
  | nil => rfl
  | cons y ys ih =>
    unfold modifyFirst
    by_cases hy : p y = true
    · rw [if_pos hy, List.map_cons, List.map_cons, h]
    · rw [if_neg hy, List.map_cons, List.map_cons, ih]

theorem fillSections_questions (q1 : String) (inner : List (String × String))
    (secs : List String) (fs : List Field) :
    (fillSections q1 inner secs fs).map (fun g => g.question) = fs.map (fun g => g.question) := by
  induction secs generalizing fs with
  | nil => rfl
  | cons s1 rest ih =>
    rw [fillSections_cons, ih]
    exact map_modifyFirst (fun g : Field => g.question) (matchIds q1 s1)
      (Field.setValue ((getOwn s1 inner).getD "")) fs (fun _ => rfl)

theorem fillQuestions_questions (d : Drafts) (keys : List String) (fs : List Field) :
    (fillQuestions d keys fs).map (fun g => g.question) = fs.map (fun g => g.question) := by
  induction keys generalizing fs with
  | nil => rfl
  | cons q1 rest ih =>
    rw [fillQuestions_cons, ih, fillSections_questions]

/-- After the first loop of `clearDraft` every field of the question is empty. -/
theorem cleared_fields (q : String) (fs : List Field) (g : Field)
    (hg : g ∈ fs.map (fun f => if f.question == some q then f.setValue "" else f))
    (hq : g.question = some q) : g.value = "" := by
  obtain ⟨f, _, hf⟩ := List.mem_map.mp hg
  by_cases h : (f.question == some q) = true
  · rw [if_pos h] at hf
    rw [← hf]
    rfl
  · rw [if_neg h] at hf
    rw [← hf] at hq
    rw [hq] at h
    simp at h

/-- Loading a drafts object that holds no entry for a question leaves the fields
of that question as they are. -/
theorem fill_keeps_question (d : Drafts) (q : String) (fs : List Field)
    (hkeys : ∀ q1 ∈ d.map (fun p => p.1), q1 ≠ q) (k : Nat) (g : Field)
    (hg : (fillQuestions d (d.map (fun p => p.1)) fs).get? k = some g)
    (hq : g.question = some q) : fs.get? k = some g := by
  have hmap := fillQuestions_questions d (d.map (fun p => p.1)) fs
  have h1 : ((fillQuestions d (d.map (fun p => p.1)) fs).map (fun g => g.question))[k]?
      = some (some q) := by
    rw [List.getElem?_map, ← List.get?_eq_getElem?, hg, Option.map_some', hq]
  rw [hmap, List.getElem?_map, ← List.get?_eq_getElem?] at h1
  cases hx : fs.get? k with
  | none => rw [hx] at h1; simp at h1
  | some x =>
    rw [hx, Option.map_some'] at h1
    have hxq : x.question = some q := Option.some.inj h1
    have := fillQuestions_frame d (d.map (fun p => p.1)) fs k x hx
      (fun q1 hq1 e => hkeys q1 hq1 (Option.some.inj (hxq.symm.trans e)).symm)
    rw [this] at hg
    rw [Option.some.inj hg]

/-- C6 (as stated, refuted): for the question id `a"b`, stored with one entry,
`clearDraft` raises (the selector built from the id is malformed) instead of
removing the entry. -/
theorem C6_clearDraft_raises_on_quoted_id :
    storedText samplePlatform (saveDrafts samplePlatform quotedIdSession) "a\"b" "situation"
      = some "Led the migration" ∧
    textsAfter (clearDraft samplePlatform "a\"b" (saveDrafts samplePlatform quotedIdSession))
      = none := by
  decide

/-- What `clearDraft` returns for a `cssSafe` id on a stored drafts object. -/
theorem clearDraft_safe (P : Platform) (q : String) (s : PracticeState) (blob : String)
    (d : Drafts) (hq : cssSafe q = true)
    (hstore : getOwn STORAGE_KEY s.localStorage = some blob) (hblob : blob ≠ "")
    (hparse : P.parse blob = some (draftsToJs d)) :
    ∃ s1, clearDraft P q s = .ok s1 ∧
      s1.fields = s.fields.map (fun f => if f.question == some q then f.setValue "" else f) ∧
      s1.localStorage = setItem STORAGE_KEY
        (P.stringify (draftsToJs (d.filter (fun p => p.1 != q)))) s.localStorage ∧
      s1.protoExtra = s.protoExtra := by
  unfold clearDraft clearFields
  rw [if_pos hq]
  dsimp only
  rw [hstore]
  dsimp only
  rw [if_neg hblob, hparse, Option.some_bind, deleteProp_draftsToJs]
  dsimp only
  by_cases ht : s.hasShowToast = true
  · rw [if_pos ht]
    exact ⟨_, rfl, rfl, rfl, rfl⟩
  · rw [if_neg ht]
    exact ⟨_, rfl, rfl, rfl, rfl⟩

/-- C6 (amended): for a question id `q` that is `cssSafe` and a persisted drafts
object whose ids are `cssSafe`, `clearDraft(q)` returns normally and leaves a
persisted store with no entry for `q` and every entry of the other question ids
unchanged; a subsequent `loadDrafts` returns normally and leaves every field of
`q` empty; and when the store had no entry for `q` the persisted store is the
same drafts object as before. -/
theorem C6_clearDraft (P : Platform) (q : String) (s : PracticeState) (blob : String)
    (d : Drafts) (hq : cssSafe q = true)
    (hstore : getOwn STORAGE_KEY s.localStorage = some blob) (hblob : blob ≠ "")
    (hparse : P.parse blob = some (draftsToJs d)) (hsafe : safeStore d = true)
    (hrt : P.parse (P.stringify (draftsToJs (d.filter (fun p => p.1 != q))))
      = some (draftsToJs (d.filter (fun p => p.1 != q)))) :
    ∃ s1, clearDraft P q s = .ok s1 ∧
      persisted P s1 = some (draftsToJs (d.filter (fun p => p.1 != q))) ∧
      getOwn q (d.filter (fun p => p.1 != q)) = none ∧
      (∀ q1, q1 ≠ q → getOwn q1 (d.filter (fun p => p.1 != q)) = getOwn q1 d) ∧
      (∃ s2, loadDrafts P s1 = .ok s2 ∧
        ∀ k g, s2.fields.get? k = some g → g.question = some q → g.value = "") ∧
      (getOwn q d = none → persisted P s1 = persisted P s) := by
  obtain ⟨s1, hs1, hfields, hls, _⟩ := clearDraft_safe P q s blob d hq hstore hblob hparse
  have hstore1 : getOwn STORAGE_KEY s1.localStorage
      = some (P.stringify (draftsToJs (d.filter (fun p => p.1 != q)))) := by
    rw [hls, getOwn_setItem, if_pos rfl]
  have hpers : persisted P s1 = some (draftsToJs (d.filter (fun p => p.1 != q))) := by
    unfold persisted
    rw [hstore1, Option.some_bind, hrt]
  have hempty : ∀ k g, s1.fields.get? k = some g → g.question = some q → g.value = "" := by
    intro k g hg hgq
    rw [hfields] at hg
    exact cleared_fields q s.fields g (List.get?_mem hg) hgq
  refine ⟨s1, hs1, hpers, ?_, ?_, ?_, ?_⟩
  · rw [getOwn_filter_ne, if_pos rfl]
  · intro q1 hq1
    rw [getOwn_filter_ne, if_neg hq1]
  · by_cases hb : P.stringify (draftsToJs (d.filter (fun p => p.1 != q))) = ""
    · refine ⟨s1, ?_, hempty⟩
      unfold loadDrafts
      rw [hstore1]
      dsimp only
      rw [if_pos hb]
    · have hsafe1 : safeStore (d.filter (fun p => p.1 != q)) = true := by
        rw [safeStore_iff] at hsafe ⊢
        exact fun p hp => hsafe p (List.mem_filter.mp hp).1
      refine ⟨_, loadDrafts_fill P s1 _ _ hstore1 hb hrt hsafe1, ?_⟩
      intro k g hg hgq
      dsimp only at hg
      have hkeys : ∀ q1 ∈ (d.filter (fun p => p.1 != q)).map (fun p => p.1), q1 ≠ q := by
        intro q1 hq1
        obtain ⟨p, hp, e⟩ := List.mem_map.mp hq1
        rw [← e]
        simpa using (List.mem_filter.mp hp).2
      exact hempty k g (fill_keeps_question _ q s1.fields hkeys k g hg hgq) hgq
  · intro hnone
    rw [hpers, filter_ne_self q d hnone]
    unfold persisted
    rw [hstore, Option.some_bind, hparse]

/-- Witness of `C6_clearDraft`: clearing `q1` in `twoQuestionSession`. -/
theorem C6_clearDraft_witness :
    ∃ s1, clearDraft samplePlatform "q1" twoQuestionSession = .ok s1 ∧
      persisted samplePlatform s1 = some (draftsToJs [("q2", [("result", "Shipped on time")])]) :=
  by
    obtain ⟨s1, h1, h2, _⟩ := C6_clearDraft samplePlatform "q1" twoQuestionSession
      (stringifyDrafts
        [("q1", [("situation", "Led the migration")]), ("q2", [("result", "Shipped on time")])])
      [("q1", [("situation", "Led the migration")]), ("q2", [("result", "Shipped on time")])]
      (by decide) (by decide) (by decide) (by rfl) (by decide) (by rfl)
    exact ⟨s1, h1, h2⟩

/-- C9: for every state, so for every string stored under the key,
`loadDrafts` returns normally; when the stored string is not parseable as JSON
the fields and the storage are left as they are. -/
theorem C9_loadDrafts_malformed (P : Platform) (s : PracticeState) :
    (∃ s1, loadDrafts P s = .ok s1) ∧
    (∀ blob, getOwn STORAGE_KEY s.localStorage = some blob → P.parse blob = none →
      ∃ s1, loadDrafts P s = .ok s1 ∧ s1.fields = s.fields ∧
        s1.localStorage = s.localStorage) := by
  constructor
  · unfold loadDrafts
    split
    · exact ⟨_, rfl⟩
    · split
      · exact ⟨_, rfl⟩
      · split
        · exact ⟨_, rfl⟩
        · exact ⟨_, rfl⟩
  · intro blob hstore hparse
    unfold loadDrafts
    rw [hstore]
    dsimp only
    by_cases hb : blob = ""
    · rw [if_pos hb]
      exact ⟨_, rfl, rfl, rfl⟩
    · rw [if_neg hb]
      unfold loadDraftsTry
      rw [hparse]
      exact ⟨_, rfl, rfl, rfl⟩

/-- Witness of `C9_loadDrafts_malformed`: the stored string `not json`. -/
theorem C9_loadDrafts_malformed_witness :
    ∃ s1, loadDrafts samplePlatform malformedSession = .ok s1 ∧
      s1.fields = malformedSession.fields ∧ s1.localStorage = malformedSession.localStorage :=
  (C9_loadDrafts_malformed samplePlatform malformedSession).2 "not json" (by decide) (by rfl)

/-! ## Theorems: timer -/

theorem updateTimerDisplay_fields (s : TimerState) :
    (updateTimerDisplay s).timerInterval = s.timerInterval ∧
    (updateTimerDisplay s).timerSeconds = s.timerSeconds ∧
    (updateTimerDisplay s).timerRunning = s.timerRunning ∧
    (updateTimerDisplay s).intervals = s.intervals ∧
    (updateTimerDisplay s).nextHandle = s.nextHandle ∧
    (updateTimerDisplay s).toasts = s.toasts ∧
    (updateTimerDisplay s).hasShowToast = s.hasShowToast := by
  unfold updateTimerDisplay
  split <;> exact ⟨rfl, rfl, rfl, rfl, rfl, rfl, rfl⟩

theorem clearInterval_single (h : Nat) : clearInterval (some h) [h] = [] := by
  simp [clearInterval]

theorem tick_single (h : Nat) (s : TimerState) (hs : s.intervals = [h]) :
    tick s = tickCallback s := by
  unfold tick
  rw [hs, List.foldl_cons, List.foldl_nil]
  unfold fire
  rw [hs]
  simp

theorem tick_none (s : TimerState) (hs : s.intervals = []) : tick s = s := by
  unfold tick
  rw [hs]
  rfl

/-- A tick with more than one second remaining counts down and keeps running. -/
theorem tick_counting (h : Nat) (m : Int) (ts : List (String × String)) (s : TimerState)
    (hc : Counting h m ts s) (hm : 1 < m) : Counting h (m - 1) ts (tick s) := by
  obtain ⟨h1, h2, h3, h4, h5, h6⟩ := hc
  rw [tick_single h s h2]
  unfold tickCallback
  dsimp only
  rw [if_neg (by rw [h4]; omega)]
  obtain ⟨u1, u2, u3, u4, _, u6, u7⟩ :=
    updateTimerDisplay_fields { s with timerSeconds := s.timerSeconds - 1 }
  refine ⟨?_, ?_, ?_, ?_, ?_, ?_⟩
  · rw [u3]; exact h1
  · rw [u4]; exact h2
  · rw [u1]; exact h3
  · rw [u2]
    show s.timerSeconds - 1 = m - 1
    rw [h4]
  · rw [u6]; exact h5
  · rw [u7]; exact h6

/-- The tick that reaches zero stops the timer, clears its repeating timer and
shows the completion toast. -/
theorem tick_last (h : Nat) (m : Int) (ts : List (String × String)) (s : TimerState)
    (hc : Counting h m ts s) (hm : m ≤ 1) :
    (tick s).timerSeconds = 0 ∧ (tick s).timerRunning = false ∧ (tick s).intervals = [] ∧
    (tick s).toasts = ts ++ [timesUp] := by
  obtain ⟨h1, h2, h3, h4, h5, h6⟩ := hc
  rw [tick_single h s h2]
  unfold tickCallback
  dsimp only
  rw [if_pos (by rw [h4]; omega)]
  have hu := updateTimerDisplay_fields
    { s with
      timerSeconds := 0
      intervals := clearInterval s.timerInterval s.intervals
      timerRunning := false
      startBtn := s.startBtn.map (fun _ => playIcon)
      toasts := if s.hasShowToast then s.toasts ++ [timesUp] else s.toasts }
  obtain ⟨_, u2, u3, u4, _, u6, _⟩ := hu
  refine ⟨u2, u3, ?_, ?_⟩
  · rw [u4]
    show clearInterval s.timerInterval s.intervals = []
    rw [h3, h2]
    exact clearInterval_single h
  · rw [u6]
    show (if s.hasShowToast then s.toasts ++ [timesUp] else s.toasts) = ts ++ [timesUp]
    rw [h6, h5]
    rfl

theorem toggle_counting (s : TimerState) (hstop : s.timerRunning = false)
    (hnone : s.intervals = []) (htoast : s.hasShowToast = true) :
    Counting s.nextHandle s.timerSeconds s.toasts (toggleTimer s) := by
  unfold toggleTimer
  rw [hstop]
  refine ⟨rfl, ?_, rfl, rfl, rfl, htoast⟩
  show s.intervals ++ [s.nextHandle] = [s.nextHandle]
  rw [hnone]
  rfl

theorem counting_iterate (h : Nat) (n : Nat) (ts : List (String × String)) (s : TimerState)
    (hc : Counting h (n : Int) ts s) (k : Nat) (hk : k < n) :
    Counting h ((n : Int) - k) ts (tick^[k] s) := by
  induction k with
  | zero => simpa using hc
  | succ k ih =>
    rw [Function.iterate_succ_apply']
    have := tick_counting h ((n : Int) - k) ts _ (ih (by omega)) (by omega)
    have e : (n : Int) - ((k + 1 : Nat) : Int) = (n : Int) - k - 1 := by push_cast; ring
    rw [e]
    exact this

/-- C7: with the timer stopped (nothing scheduled), `n >= 1` seconds remaining
(`n` a whole number a JavaScript number counts exactly, at most
`maxSafeInteger`) and `showToast` defined, `toggleTimer` followed by `k < n`
ticks leaves `n - k` seconds remaining, the timer running and no completion
toast; after the `n`-th tick the remaining time is 0, the timer is stopped, no
repeating timer is scheduled and the completion toast (the message
`Time's up! Great practice session!` of type `success`) has been shown exactly
once, and further ticks change nothing. -/
theorem C7_countdown (s : TimerState) (n : Nat) (hn : 1 ≤ n) (hsec : s.timerSeconds = n)
    (hstop : s.timerRunning = false) (hnone : s.intervals = [])
    (htoast : s.hasShowToast = true) :
    n ≤ maxSafeInteger →
    (∀ k, k < n →
      (tick^[k] (toggleTimer s)).timerSeconds = (n : Int) - k ∧
      (tick^[k] (toggleTimer s)).timerRunning = true ∧
      (tick^[k] (toggleTimer s)).toasts = s.toasts) ∧
    (tick^[n] (toggleTimer s)).timerSeconds = 0 ∧
    (tick^[n] (toggleTimer s)).timerRunning = false ∧
    (tick^[n] (toggleTimer s)).intervals = [] ∧
    (tick^[n] (toggleTimer s)).toasts
      = s.toasts ++ [("Time\x27s up! Great practice session!", "success")] ∧
    (∀ m, tick^[n + m] (toggleTimer s) = tick^[n] (toggleTimer s)) := by
  intro _
  have h0 : Counting s.nextHandle (n : Int) s.toasts (toggleTimer s) := by
    have := toggle_counting s hstop hnone htoast
    rw [hsec] at this
    exact this
  have hlast : (tick^[n] (toggleTimer s)).timerSeconds = 0 ∧
      (tick^[n] (toggleTimer s)).timerRunning = false ∧
      (tick^[n] (toggleTimer s)).intervals = [] ∧
      (tick^[n] (toggleTimer s)).toasts = s.toasts ++ [timesUp] := by
    obtain ⟨p, hp⟩ : ∃ p, n = p + 1 := ⟨n - 1, by omega⟩
    subst hp
    rw [Function.iterate_succ_apply']
    exact tick_last _ _ _ _ (counting_iterate _ _ _ _ h0 p (by omega)) (by push_cast; omega)
  refine ⟨?_, hlast.1, hlast.2.1, hlast.2.2.1, hlast.2.2.2, ?_⟩
  · intro k hk
    obtain ⟨_, _, _, c4, c5, _⟩ := counting_iterate _ _ _ _ h0 k hk
    obtain ⟨c1, _⟩ := counting_iterate _ _ _ _ h0 k hk
    exact ⟨c4, c1, c5⟩
  · intro m
    induction m with
    | zero => rfl
    | succ m ih =>
      rw [← Nat.add_assoc, Function.iterate_succ_apply', ih]
      exact tick_none _ hlast.2.2.1

/-- Witness of `C7_countdown` at `n = 120` on the timer as loaded: after 30 ticks
90 seconds remain, after 120 ticks the timer has stopped with one toast. -/
theorem C7_countdown_witness :
    (tick^[30] (toggleTimer initialTimer)).timerSeconds = 90 ∧
    (tick^[120] (toggleTimer initialTimer)).timerRunning = false ∧
    (tick^[120] (toggleTimer initialTimer)).toasts
      = [("Time\x27s up! Great practice session!", "success")] := by
  have h := C7_countdown initialTimer 120 (by decide) rfl rfl rfl rfl (by decide)
  exact ⟨(h.1 30 (by decide)).1, h.2.2.1, h.2.2.2.2.1⟩

theorem timerInv_toggle (s : TimerState) (h : TimerInv s) : TimerInv (toggleTimer s) := by
  unfold toggleTimer
  by_cases hr : s.timerRunning = true
  · rw [if_pos hr]
    obtain ⟨i, hi, hl⟩ := h.1 hr
    refine ⟨fun h1 => absurd h1 (by simp), fun _ => ?_⟩
    show clearInterval s.timerInterval s.intervals = []
    rw [hi, hl]
    exact clearInterval_single i
  · rw [if_neg hr]
    have hs : s.timerRunning = false := by simpa using hr
    refine ⟨fun _ => ⟨s.nextHandle, rfl, ?_⟩, fun h1 => absurd h1 (by simp)⟩
    show s.intervals ++ [s.nextHandle] = [s.nextHandle]
    rw [h.2 hs]
    rfl

theorem clearInterval_inv (s : TimerState) (h : TimerInv s) :
    clearInterval s.timerInterval s.intervals = [] := by
  by_cases hr : s.timerRunning = true
  · obtain ⟨i, hi, hl⟩ := h.1 hr
    rw [hi, hl]
    exact clearInterval_single i
  · have hs : s.timerRunning = false := by simpa using hr
    rw [h.2 hs]
    cases s.timerInterval <;> rfl

theorem timerInv_reset (s : TimerState) (h : TimerInv s) : TimerInv (resetTimer s) := by
  unfold resetTimer
  obtain ⟨_, _, u3, u4, _, _, _⟩ := updateTimerDisplay_fields
    { s with
      intervals := clearInterval s.timerInterval s.intervals
      timerRunning := false
      timerSeconds := 120
      startBtn := s.startBtn.map (fun _ => playIcon) }
  refine ⟨fun h1 => ?_, fun _ => ?_⟩
  · rw [u3] at h1
    exact absurd h1 (by simp)
  · rw [u4]
    exact clearInterval_inv s h

theorem timerInv_tick (s : TimerState) (h : TimerInv s) : TimerInv (tick s) := by
  by_cases hr : s.timerRunning = true
  · obtain ⟨i, hi, hl⟩ := h.1 hr
    rw [tick_single i s hl]
    unfold tickCallback
    dsimp only
    split
    · obtain ⟨_, _, u3, u4, _, _, _⟩ := updateTimerDisplay_fields
        { s with
          timerSeconds := 0
          intervals := clearInterval s.timerInterval s.intervals
          timerRunning := false
          startBtn := s.startBtn.map (fun _ => playIcon)
          toasts := if s.hasShowToast then s.toasts ++ [timesUp] else s.toasts }
      refine ⟨fun h1 => ?_, fun _ => ?_⟩
      · rw [u3] at h1
        exact absurd h1 (by simp)
      · rw [u4]
        exact clearInterval_inv s h
    · obtain ⟨u1, _, u3, u4, _, _, _⟩ := updateTimerDisplay_fields
        { s with timerSeconds := s.timerSeconds - 1 }
      refine ⟨fun _ => ⟨i, ?_, ?_⟩, fun h1 => ?_⟩
      · rw [u1]; exact hi
      · rw [u4]; exact hl
      · rw [u3] at h1
        rw [hr] at h1
        exact absurd h1 (by simp)
  · have hs : s.timerRunning = false := by simpa using hr
    rw [tick_none s (h.2 hs)]
    exact h

theorem timerInv_of_reachable (s : TimerState) (h : Reachable s) : TimerInv s := by
  induction h with
  | init s h1 h2 h3 h4 =>
    exact ⟨fun h => by rw [h2] at h; exact absurd h (by simp), fun _ => h3⟩
  | toggle s _ ih => exact timerInv_toggle s ih
  | reset s _ ih => exact timerInv_reset s ih
  | tick s _ ih => exact timerInv_tick s ih

/-- C8: in every timer state reachable from a loaded state by `toggleTimer`,
`resetTimer` and ticks in which the timer is not running, `toggleTimer` called
twice in immediate succession leaves no repeating timer scheduled, the timer
stopped and the remaining seconds unchanged. -/
theorem C8_toggle_twice (s : TimerState) (hr : Reachable s) (hstop : s.timerRunning = false) :
    (toggleTimer (toggleTimer s)).intervals = [] ∧
    (toggleTimer (toggleTimer s)).timerRunning = false ∧
    (toggleTimer (toggleTimer s)).timerSeconds = s.timerSeconds := by
  have hinv := timerInv_of_reachable s hr
  have hnone := hinv.2 hstop
  have h1 : toggleTimer s =
      { s with
        timerRunning := true
        startBtn := s.startBtn.map (fun _ => pauseIcon)
        timerInterval := some s.nextHandle
        intervals := s.intervals ++ [s.nextHandle]
        nextHandle := s.nextHandle + 1 } := by
    unfold toggleTimer
    rw [hstop]
    rfl
  rw [h1]
  unfold toggleTimer
  dsimp only
  rw [if_pos rfl]
  refine ⟨?_, rfl, rfl⟩
  show clearInterval (some s.nextHandle) (s.intervals ++ [s.nextHandle]) = []
  rw [hnone]
  exact clearInterval_single _

/-- Witness of `C8_toggle_twice`: the timer after a start, a minute of ticks and
a reset. -/
theorem C8_toggle_twice_witness :
    (toggleTimer (toggleTimer (resetTimer (tick^[60] (toggleTimer initialTimer))))).intervals = [] ∧
    (toggleTimer (toggleTimer (resetTimer (tick^[60] (toggleTimer initialTimer))))).timerRunning
      = false ∧
    (toggleTimer (toggleTimer (resetTimer (tick^[60] (toggleTimer initialTimer))))).timerSeconds
      = (resetTimer (tick^[60] (toggleTimer initialTimer))).timerSeconds :=
  C8_toggle_twice (resetTimer (tick^[60] (toggleTimer initialTimer)))
    (Reachable.reset _ (by
      have hiter : ∀ k, Reachable (tick^[k] (toggleTimer initialTimer)) := by
        intro k
        induction k with
        | zero => exact Reachable.toggle _ (Reachable.init _ rfl rfl rfl rfl)
        | succ k ih =>
          rw [Function.iterate_succ_apply']
          exact Reachable.tick _ ih
      exact hiter 60))
    (by decide)

/-! ## Theorems: debounce -/

theorem advanceTo_before {σ α : Type} (func : α → σ → σ) (wait t : Nat) (args : α) (w : σ)
    (s : Loop σ α) (t1 : Nat) (ha : Armed wait t args w s) (h1 : t ≤ t1) (h2 : t1 < t + wait) :
    Armed wait t args w { advanceTo func t1 s with now := t } ∧
    (advanceTo func t1 s).now = t1 ∧ (advanceTo func t1 s).world = w := by
  obtain ⟨h, hp, ht, hi, hn, hw⟩ := ha
  have hfil : s.pending.filter (fun u => decide (u.2.1 ≤ t1)) = [] := by
    rw [hp]
    have : ¬ (t + wait ≤ t1) := by omega
    simp [this]
  have hadv : advanceTo func t1 s = { s with now := max s.now t1 } := by
    unfold advanceTo
    rw [hfil]
    rfl
  rw [hadv]
  refine ⟨⟨h, hp, ht, hi, rfl, hw⟩, ?_, hw⟩
  show max s.now t1 = t1
  rw [hn]
  exact Nat.max_eq_right h1

theorem clearTimeout_single {α : Type} (h t : Nat) (a : α) :
    clearTimeout (some h) [(h, t, a)] = [] := by
  simp [clearTimeout]

/-- A call that arrives before the pending timeout is due replaces it. -/
theorem callAt_armed {σ α : Type} (func : α → σ → σ) (wait t : Nat) (args : α) (w : σ)
    (s : Loop σ α) (c : Call σ α) (ha : Armed wait t args w s) (h1 : t ≤ c.time)
    (h2 : c.time < t + wait) : Armed wait c.time c.args (c.edit w) (callAt func wait s c) := by
  obtain ⟨hb, hnow, hworld⟩ := advanceTo_before func wait t args w s c.time ha h1 h2
  obtain ⟨h, hp, ht, hi, _, _⟩ := hb
  have hp1 : (advanceTo func c.time s).pending = [(h, t + wait, args)] := hp
  have ht1 : (advanceTo func c.time s).timeout = some h := ht
  have hi1 : (advanceTo func c.time s).invoked = [] := hi
  unfold callAt executedFunction
  refine ⟨(advanceTo func c.time s).nextHandle, ?_, rfl, hi1, hnow, ?_⟩
  · dsimp only
    rw [ht1, hp1, clearTimeout_single, hnow]
    rfl
  · dsimp only
    rw [hworld]

/-- The first call schedules its timeout. -/
theorem callAt_first {σ α : Type} (func : α → σ → σ) (wait : Nat) (s : Loop σ α)
    (c : Call σ α) (hp : s.pending = []) (hi : s.invoked = []) (hn : s.now ≤ c.time) :
    Armed wait c.time c.args (c.edit s.world) (callAt func wait s c) := by
  have hfil : s.pending.filter (fun u => decide (u.2.1 ≤ c.time)) = [] := by
    rw [hp]
    rfl
  have hadv : advanceTo func c.time s = { s with now := max s.now c.time } := by
    unfold advanceTo
    rw [hfil]
    rfl
  unfold callAt executedFunction
  rw [hadv]
  refine ⟨s.nextHandle, ?_, rfl, hi, Nat.max_eq_right hn, rfl⟩
  dsimp only
  rw [hp, Nat.max_eq_right hn]
  cases s.timeout <;> rfl

theorem runCalls_armed {σ α : Type} (func : α → σ → σ) (wait : Nat) (cs : List (Call σ α))
    (c : Call σ α) (w : σ) (s : Loop σ α) (ha : Armed wait c.time c.args w s)
    (hr : Rapid wait c.time cs) :
    Armed wait (lastCall c cs).time (lastCall c cs).args (editsOf cs w)
      (runCalls func wait cs s) := by
  induction cs generalizing c w s with
  | nil => exact ha
  | cons d ds ih =>
    obtain ⟨h1, h2, h3⟩ := hr
    exact ih d (d.edit w) (callAt func wait s d) (callAt_armed func wait _ _ w s d ha h1 h2) h3

/-- When the pending timeout is due it runs `func` once, with its arguments. -/
theorem advanceTo_after {σ α : Type} (func : α → σ → σ) (wait t : Nat) (args : α) (w : σ)
    (s : Loop σ α) (T : Nat) (ha : Armed wait t args w s) (hT : t + wait ≤ T) :
    (advanceTo func T s).invoked = [(t + wait, args)] ∧
    (advanceTo func T s).world = func args w ∧ (advanceTo func T s).pending = [] := by
  obtain ⟨h, hp, ht, hi, hn, hw⟩ := ha
  have hfil : s.pending.filter (fun u => decide (u.2.1 ≤ T)) = [(h, t + wait, args)] := by
    rw [hp]
    simp [hT]
  unfold advanceTo
  rw [hfil, List.foldl_cons, List.foldl_nil]
  unfold expire
  have hany : s.pending.any (fun u => u.1 == h) = true := by
    rw [hp]
    simp
  dsimp only
  rw [hany, if_pos rfl]
  unfold later
  dsimp only
  rw [hp, hi, hw, ht]
  refine ⟨rfl, rfl, ?_⟩
  simp [clearTimeout]

/-- Calls that each arrive before `wait` has elapsed since the previous one run
`func` once, `wait` after the last call, with its arguments. -/
theorem debounce_rapid {σ α : Type} (func : α → σ → σ) (wait : Nat) (c : Call σ α)
    (cs : List (Call σ α)) (s0 : Loop σ α) (T : Nat)
    (hp : s0.pending = []) (hi : s0.invoked = []) (hn : s0.now ≤ c.time)
    (hr : Rapid wait c.time cs) (hT : (lastCall c cs).time + wait ≤ T) :
    (advanceTo func T (runCalls func wait (c :: cs) s0)).invoked
        = [((lastCall c cs).time + wait, (lastCall c cs).args)] ∧
    (advanceTo func T (runCalls func wait (c :: cs) s0)).world
        = func (lastCall c cs).args (editsOf (c :: cs) s0.world) ∧
    (advanceTo func T (runCalls func wait (c :: cs) s0)).pending = [] := by
  have h1 := callAt_first func wait s0 c hp hi hn
  have h2 := runCalls_armed func wait cs c (c.edit s0.world) (callAt func wait s0 c) h1 hr
  exact advanceTo_after func wait _ _ _ _ T h2 hT

/-! ## Theorems: timer display -/

theorem padStart2_seconds (m : Nat) (h : m < 60) :
    padStart2 (toString (m : Int)) = String.mk [Nat.digitChar (m / 10), Nat.digitChar (m % 10)] := by
  interval_cases m <;> decide

theorem fdiv_sixty (r : Nat) : Int.fdiv (r : Int) 60 = ((r / 60 : Nat) : Int) := by
  cases r <;> rfl

theorem tmod_sixty (r : Nat) : Int.tmod (r : Int) 60 = ((r % 60 : Nat) : Int) := rfl

/-- The remaining seconds of a reachable timer state lie between 0 and 120. -/
theorem timerSeconds_range (s : TimerState) (h : Reachable s) :
    0 ≤ s.timerSeconds ∧ s.timerSeconds ≤ 120 := by
  induction h with
  | init s h1 h2 h3 h4 => rw [h4]; exact ⟨by decide, by decide⟩
  | toggle s _ ih =>
    unfold toggleTimer
    split <;> exact ih
  | reset s _ _ =>
    unfold resetTimer
    rw [(updateTimerDisplay_fields _).2.1]
    show (0 : Int) ≤ 120 ∧ (120 : Int) ≤ 120
    exact ⟨by decide, by decide⟩
  | tick s hs ih =>
    have hinv := timerInv_of_reachable s hs
    by_cases hr : s.timerRunning = true
    · obtain ⟨i, _, hl⟩ := hinv.1 hr
      rw [tick_single i s hl]
      unfold tickCallback
      dsimp only
      split
      · rw [(updateTimerDisplay_fields _).2.1]
        show (0 : Int) ≤ 0 ∧ (0 : Int) ≤ 120
        exact ⟨by decide, by decide⟩
      · rename_i hpos
        rw [(updateTimerDisplay_fields _).2.1]
        show 0 ≤ s.timerSeconds - 1 ∧ s.timerSeconds - 1 ≤ 120
        have hpos1 : ¬ (s.timerSeconds - 1 ≤ 0) := hpos
        omega
    · have hstop : s.timerRunning = false := by simpa using hr
      rw [tick_none s (hinv.2 hstop)]
      exact ih

/-- C12: for every remaining value `r >= 0` (whole seconds, a whole number a
JavaScript number counts exactly: at most `maxSafeInteger`), the text
`updateTimerDisplay` writes to the timer display is the decimal of
`floor(r / 60)`, a colon, and `r mod 60` zero-padded to exactly two digits,
which is `specTimerText r`. -/
theorem C12_timer_text (s : TimerState) (r : Nat) (d : TimerDisplay)
    (hr : s.timerSeconds = (r : Int)) (hd : s.display = some d) :
    r ≤ maxSafeInteger →
    (updateTimerDisplay s).display.map (fun x => x.textContent) = some (specTimerText r) := by
  intro _
  unfold updateTimerDisplay
  rw [hd]
  dsimp only
  rw [hr, fdiv_sixty, tmod_sixty, padStart2_seconds (r % 60) (Nat.mod_lt r (by decide))]
  rfl

/-- Witness of `C12_timer_text`: 90 seconds read `1:30`, 120 read `2:00` and 5
read `0:05`. -/
theorem C12_timer_text_witness :
    (updateTimerDisplay (timerAt 90)).display.map (fun x => x.textContent) = some "1:30" ∧
    (updateTimerDisplay (timerAt 120)).display.map (fun x => x.textContent) = some "2:00" ∧
    (updateTimerDisplay (timerAt 5)).display.map (fun x => x.textContent) = some "0:05" :=
  ⟨(C12_timer_text (timerAt 90) 90 _ rfl rfl (by decide)).trans (by decide),
   (C12_timer_text (timerAt 120) 120 _ rfl rfl (by decide)).trans (by decide),
   (C12_timer_text (timerAt 5) 5 _ rfl rfl (by decide)).trans (by decide)⟩

/-! ## Theorems: navigation buttons -/

theorem get?_modifyAt {α : Type} (f : α → α) (j k : Nat) (l : List α) :
    (modifyAt f j l).get? k = if k = j then (l.get? k).map f else l.get? k := by
  induction l generalizing j k with
  | nil => cases j <;> simp [modifyAt]
  | cons x xs ih =>
    cases j with
    | zero =>
      cases k with
      | zero => simp [modifyAt]
      | succ k => simp [modifyAt]
    | succ j =>
      cases k with
      | zero => simp [modifyAt]
      | succ k =>
        have := ih j k
        simp only [modifyAt, List.get?_cons_succ, this, Nat.add_right_cancel_iff]

theorem map_modifyAt {α β : Type} (g : α → β) (f : α → α) (h : ∀ x, g (f x) = g x)
    (j : Nat) (l : List α) : (modifyAt f j l).map g = l.map g := by
  induction l generalizing j with
  | nil => cases j <;> rfl
  | cons x xs ih =>
    cases j with
    | zero => rw [modifyAt, List.map_cons, List.map_cons, h]
    | succ j => rw [modifyAt, List.map_cons, List.map_cons, ih]

theorem firstIdx_map {α β : Type} (g : α → β) (p : β → Bool) (l : List α) :
    firstIdx p (l.map g) = firstIdx (fun x => p (g x)) l := by
  induction l with
  | nil => rfl
  | cons x xs ih => simp only [List.map_cons, firstIdx, ih]

/-- `getElementById` reads the ids only. -/
theorem getElementById_congr (l l1 : List Elem) (name : String)
    (h : l1.map pageKey = l.map pageKey) : getElementById l1 name = getElementById l name := by
  unfold getElementById
  split
  · rfl
  · have e : ∀ d : List Elem, firstIdx (fun e => e.id == name) d
        = firstIdx (fun k : String × Bool => k.1 == name) (d.map pageKey) := by
      intro d
      rw [firstIdx_map]
      rfl
    rw [e l1, e l, h]

theorem pageKey_addActive (e : Elem) : pageKey (e.addClass "active") = pageKey e := by
  unfold pageKey
  rw [id_addClass, hasClass_addClass]
  have : ("tab-content" == "active") = false := by decide
  rw [this, Bool.or_false]

theorem pageKey_selectButton (e : Elem) : pageKey (selectButton e) = pageKey e :=
  pageKey_addActive e

theorem pageKey_cleared (e : Elem) : pageKey (deselectButton (hideSection e)) = pageKey e := by
  unfold pageKey
  rw [(cleared e).1, (cleared e).2.1]

theorem pageKey_hidden (e : Elem) (b : Bool) (i : Int) :
    pageKey (if i = 0 then Elem.addClass "hidden" { e with disabled := b }
      else Elem.removeClass "hidden" { e with disabled := b }) = pageKey e := by
  unfold pageKey
  split
  · rw [id_addClass, hasClass_addClass]
    have : ("tab-content" == "hidden") = false := by decide
    rw [this, Bool.or_false]
    rfl
  · rw [hasClass_removeClass]
    have : ("tab-content" != "hidden") = true := by decide
    rw [this, Bool.and_true]
    rfl

theorem pageKey_updateProgressBar (s : TabState) :
    (updateProgressBar s).doc.map pageKey = s.doc.map pageKey := by
  unfold updateProgressBar
  split
  · rfl
  · dsimp only
    split
    · dsimp only
      apply map_modifyAt
      intro _
      rfl
    · dsimp only
      refine Eq.trans (map_modifyAt pageKey _ ?_ _ _) (map_modifyAt pageKey _ ?_ _ _) <;>
        intro _ <;> rfl

theorem pageKey_updateNavButtons (s : TabState) :
    (updateNavButtons s).doc.map pageKey = s.doc.map pageKey := by
  unfold updateNavButtons
  dsimp only
  have hprev : (match getElementById s.doc "prevBtn" with
      | none => s.doc
      | some p =>
        modifyAt (fun e =>
          let e1 := { e with disabled := decide (s.currentTabIndex = 0) }
          if s.currentTabIndex = 0 then e1.addClass "hidden" else e1.removeClass "hidden") p
          s.doc).map pageKey = s.doc.map pageKey := by
    split
    · rfl
    · apply map_modifyAt
      intro e
      exact pageKey_hidden e _ _
  split
  · exact hprev
  · refine Eq.trans (map_modifyAt pageKey _ ?_ _ _) hprev
    intro e
    dsimp only
    split <;> rfl

theorem pageKey_openTab (evt : Option Nat) (t : String) (s : TabState) :
    (openTab evt t s).doc.map pageKey = s.doc.map pageKey := by
  have h2 : ((s.doc.map hideSection).map deselectButton).map pageKey = s.doc.map pageKey := by
    rw [List.map_map, List.map_map]
    apply List.map_congr_left
    intro e _
    exact pageKey_cleared e
  have h3 : (if t = "" then (s.doc.map hideSection).map deselectButton
      else modifyFirst (fun e => e.id == t) (Elem.addClass "active")
        ((s.doc.map hideSection).map deselectButton)).map pageKey = s.doc.map pageKey := by
    split
    · exact h2
    · exact Eq.trans (map_modifyFirst pageKey _ _ _ pageKey_addActive) h2
  unfold openTab
  dsimp only
  rw [pageKey_updateNavButtons, pageKey_updateProgressBar]
  dsimp only
  cases evt with
  | some c =>
    dsimp only
    rw [modify_getElementById]
    exact Eq.trans (map_modifyAt pageKey _ pageKey_selectButton _ _) h3
  | none =>
    dsimp only
    rw [modify_getElementById, modify_getElementById]
    split
    · exact h3
    · exact Eq.trans (map_modifyFirst pageKey _ _ _ pageKey_selectButton) h3

theorem pageKey_navigateTabs (d : Int) (s : TabState) :
    (navigateTabs d s).doc.map pageKey = s.doc.map pageKey := by
  unfold navigateTabs
  dsimp only
  split
  · split
    · exact pageKey_openTab _ _ _
    · rfl
  · rfl

theorem disabled_addClass (c : String) (e : Elem) : (e.addClass c).disabled = e.disabled := by
  unfold Elem.addClass
  split <;> rfl

theorem found_by_id (l : List Elem) (name : String) (j : Nat)
    (h : getElementById l name = some j) : ∃ e, l.get? j = some e ∧ e.id = name := by
  unfold getElementById at h
  split at h
  · exact absurd h (by simp)
  · obtain ⟨e, he, hid⟩ := firstIdx_some_get? _ _ _ h
    exact ⟨e, he, by simpa using hid⟩

/-- What `updateNavButtons` leaves in the two buttons. -/
theorem updateNavButtons_buttons (s : TabState) (p n : Nat)
    (hp : getElementById s.doc "prevBtn" = some p)
    (hn : getElementById s.doc "nextBtn" = some n) :
    ∃ ep en,
      (updateNavButtons s).doc.get? p = some ep ∧ ep.id = "prevBtn" ∧
      ep.disabled = decide (s.currentTabIndex = 0) ∧
      (updateNavButtons s).doc.get? n = some en ∧ en.id = "nextBtn" ∧
      en.disabled = decide (s.currentTabIndex = 5) ∧
      en.innerHTML = (if s.currentTabIndex = 5 then completeLabel else nextLabel) := by
  obtain ⟨e0, he0, hid0⟩ := found_by_id _ _ _ hp
  obtain ⟨e1, he1, hid1⟩ := found_by_id _ _ _ hn
  have hpn : ¬ (p = n) := by
    intro e
    rw [e, he1] at he0
    rw [← Option.some.inj he0, hid1] at hid0
    exact absurd hid0 (by decide)
  have hnp : ¬ (n = p) := fun e => hpn e.symm
  have hlen : (tabOrder.length : Int) - 1 = 5 := by decide
  unfold updateNavButtons
  dsimp only
  rw [hp, hn, hlen]
  dsimp only
  have hgp : ∃ ep,
      (modifyAt (fun e =>
          if s.currentTabIndex = 5 then
            { e with innerHTML := completeLabel, disabled := true }
          else
            { e with innerHTML := nextLabel, disabled := decide (s.currentTabIndex = 5) }) n
        (modifyAt (fun e =>
          if s.currentTabIndex = 0 then
            Elem.addClass "hidden" { e with disabled := decide (s.currentTabIndex = 0) }
          else Elem.removeClass "hidden" { e with disabled := decide (s.currentTabIndex = 0) }) p
          s.doc)).get? p = some ep ∧ ep.id = "prevBtn" ∧
      ep.disabled = decide (s.currentTabIndex = 0) := by
    rw [get?_modifyAt, if_neg hpn, get?_modifyAt, if_pos rfl, he0]
    refine ⟨_, rfl, ?_, ?_⟩
    · split
      · rw [id_addClass]; exact hid0
      · exact hid0
    · split
      · rw [disabled_addClass]
      · rfl
  have hgn : ∃ en,
      (modifyAt (fun e =>
          if s.currentTabIndex = 5 then
            { e with innerHTML := completeLabel, disabled := true }
          else
            { e with innerHTML := nextLabel, disabled := decide (s.currentTabIndex = 5) }) n
        (modifyAt (fun e =>
          if s.currentTabIndex = 0 then
            Elem.addClass "hidden" { e with disabled := decide (s.currentTabIndex = 0) }
          else Elem.removeClass "hidden" { e with disabled := decide (s.currentTabIndex = 0) }) p
          s.doc)).get? n = some en ∧ en.id = "nextBtn" ∧
      en.disabled = decide (s.currentTabIndex = 5) ∧
      en.innerHTML = (if s.currentTabIndex = 5 then completeLabel else nextLabel) := by
    rw [get?_modifyAt, if_pos rfl, get?_modifyAt, if_neg hnp, he1]
    refine ⟨_, rfl, ?_, ?_, ?_⟩
    · split
      · exact hid1
      · exact hid1
    · dsimp only
      by_cases h5 : s.currentTabIndex = 5
      · rw [if_pos h5]
        simp [h5]
      · rw [if_neg h5]
    · dsimp only
      by_cases h5 : s.currentTabIndex = 5
      · rw [if_pos h5, if_pos h5]
      · rw [if_neg h5, if_neg h5]
  obtain ⟨ep, g1, g2, g3⟩ := hgp
  obtain ⟨en, g4, g5, g6, g7⟩ := hgn
  exact ⟨ep, en, g1, g2, g3, g4, g5, g6, g7⟩

/-- The two navigation buttons after `openTab`. -/
theorem openTab_buttons (evt : Option Nat) (t : String) (s : TabState) (p n : Nat)
    (hp : getElementById s.doc "prevBtn" = some p)
    (hn : getElementById s.doc "nextBtn" = some n) :
    ∃ ep en,
      (openTab evt t s).doc.get? p = some ep ∧ ep.id = "prevBtn" ∧
      ep.disabled = decide (indexOf tabOrder t = 0) ∧
      (openTab evt t s).doc.get? n = some en ∧ en.id = "nextBtn" ∧
      en.disabled = decide (indexOf tabOrder t = 5) ∧
      en.innerHTML = (if indexOf tabOrder t = 5 then completeLabel else nextLabel) := by
  have hkey := pageKey_openTab evt t s
  unfold openTab at hkey ⊢
  dsimp only at hkey ⊢
  rw [pageKey_updateNavButtons] at hkey
  have h := updateNavButtons_buttons _ p n
    ((getElementById_congr _ _ _ hkey).trans hp) ((getElementById_congr _ _ _ hkey).trans hn)
  rw [currentTabIndex_updateProgressBar] at h
  exact h

theorem indexOf_position (i : Nat) (S : String) (h : tabOrder.get? i = some S) :
    indexOf tabOrder S = (i : Int) := by
  have hi : i < 6 := by
    by_contra hc
    have hnone : tabOrder.get? i = none := by
      rw [List.get?_eq_none]
      have : tabOrder.length = 6 := rfl
      omega
    rw [hnone] at h
    exact absurd h (by simp)
  interval_cases i <;> simp [tabOrder] at h <;> subst h <;> rfl

theorem navigateTabs_next (s : TabState) (k : Int) (S : String) (hk : s.currentTabIndex = k)
    (hr : 0 ≤ k + 1 ∧ k + 1 < 6) (hS : tabOrder.get? (k + 1).toNat = some S) :
    navigateTabs 1 s = openTab none S s := by
  have hlen : (tabOrder.length : Int) = 6 := by decide
  unfold navigateTabs
  dsimp only
  rw [hk, hlen, if_pos hr, hS]

/-- A page that holds a section keeps holding it whatever the scripts do. -/
theorem section_kept (l l1 : List Elem) (h : l1.map pageKey = l.map pageKey) (S B : String)
    (j : Nat) (e : Elem) (hfind : firstIdx (fun e => e.id == S) l = some j)
    (hget : l.get? j = some e) (hsec : e.hasClass "tab-content" = true)
    (hb : ∀ x ∈ l, x.id = B → x.hasClass "tab-content" = false) :
    firstIdx (fun e => e.id == S) l1 = some j ∧
    (∃ e1, l1.get? j = some e1 ∧ e1.hasClass "tab-content" = true) ∧
    (∀ x ∈ l1, x.id = B → x.hasClass "tab-content" = false) := by
  have hkeys : ∀ d : List Elem, firstIdx (fun e => e.id == S) d
      = firstIdx (fun k : String × Bool => k.1 == S) (d.map pageKey) := by
    intro d
    rw [firstIdx_map]
    rfl
  refine ⟨by rw [hkeys l1, h, ← hkeys l]; exact hfind, ?_, ?_⟩
  · have h1 : (l1.map pageKey)[j]? = some (pageKey e) := by
      rw [h, List.getElem?_map, ← List.get?_eq_getElem?, hget]
      rfl
    rw [List.getElem?_map, ← List.get?_eq_getElem?] at h1
    cases hx : l1.get? j with
    | none => rw [hx] at h1; simp at h1
    | some e1 =>
      rw [hx, Option.map_some'] at h1
      have hk : pageKey e1 = pageKey e := Option.some.inj h1
      refine ⟨e1, rfl, ?_⟩
      have : (pageKey e1).2 = (pageKey e).2 := by rw [hk]
      exact this.trans hsec
  · intro x hx hid
    have hm : pageKey x ∈ l.map pageKey := by
      rw [← h]
      exact List.mem_map.mpr ⟨x, hx, rfl⟩
    obtain ⟨y, hy, hky⟩ := List.mem_map.mp hm
    have h1 : y.id = x.id := congrArg Prod.fst hky
    have h2 : y.hasClass "tab-content" = x.hasClass "tab-content" := congrArg Prod.snd hky
    rw [← h2]
    exact hb y hy (h1.trans hid)

/-- C11: on a page with the two navigation buttons, after `openTab(null, S)` for
the section `S` at index `i` of the six sections, the previous button is
disabled if and only if `i = 0`, and the next button is disabled if and only if
`i = 5`, and carries the completion markup
`<i class="fas fa-check"></i> <span>Complete!</span>` (a check icon and the
text `Complete!`) if and only if `i = 5`; at every other index it carries
`<span>Next</span> <i class="fas fa-arrow-right"></i>`.  In particular, from
the index 0 (`basics`), five calls of `navigateTabs(1)` end at index 5 with the
fragment `practice`, the section `practice` the only active one (on a page
that holds it), and the next button disabled and carrying the completion
markup. -/
theorem C11_nav_buttons :
    (∀ (s : TabState) (i : Nat) (S : String) (p n : Nat),
      tabOrder.get? i = some S →
      getElementById s.doc "prevBtn" = some p →
      getElementById s.doc "nextBtn" = some n →
      ∃ ep en,
        (openTab none S s).doc.get? p = some ep ∧ ep.id = "prevBtn" ∧
        (openTab none S s).doc.get? n = some en ∧ en.id = "nextBtn" ∧
        (ep.disabled = true ↔ i = 0) ∧
        (en.disabled = true ↔ i = tabOrder.length - 1) ∧
        (en.innerHTML = "<i class=\"fas fa-check\"></i> <span>Complete!</span>"
          ↔ i = tabOrder.length - 1) ∧
        (i ≠ tabOrder.length - 1 →
          en.innerHTML = "<span>Next</span> <i class=\"fas fa-arrow-right\"></i>")) ∧
    (∀ (s : TabState) (p n j : Nat) (e : Elem),
      s.currentTabIndex = 0 →
      getElementById s.doc "prevBtn" = some p →
      getElementById s.doc "nextBtn" = some n →
      getElementById s.doc "practice" = some j →
      s.doc.get? j = some e →
      e.hasClass "tab-content" = true →
      (∀ x ∈ s.doc, x.id = "tab-practice" → x.hasClass "tab-content" = false) →
      ((navigateTabs 1)^[5] s).currentTabIndex = 5 ∧
      tabOrder.get? 5 = some "practice" ∧
      ((navigateTabs 1)^[5] s).fragment = "practice" ∧
      (activeSections ((navigateTabs 1)^[5] s)).map (fun e => e.id) = ["practice"] ∧
      ∃ en, ((navigateTabs 1)^[5] s).doc.get? n = some en ∧ en.id = "nextBtn" ∧
        en.disabled = true ∧
        en.innerHTML = "<i class=\"fas fa-check\"></i> <span>Complete!</span>") := by
  have hlen : tabOrder.length = 6 := rfl
  constructor
  · intro s i S p n hS hp hn
    obtain ⟨ep, en, g1, g2, g3, g4, g5, g6, g7⟩ := openTab_buttons none S s p n hp hn
    rw [indexOf_position i S hS] at g3 g6 g7
    refine ⟨ep, en, g1, g2, g4, g5, ?_, ?_, ?_, ?_⟩
    · rw [g3, decide_eq_true_iff]
      omega
    · rw [g6, decide_eq_true_iff, hlen]
      omega
    · rw [g7, hlen]
      by_cases h5 : (i : Int) = 5
      · rw [if_pos h5]
        exact ⟨fun _ => by omega, fun _ => rfl⟩
      · rw [if_neg h5]
        exact ⟨fun h => absurd h (by decide), fun h => absurd (by omega) h5⟩
    · intro hi
      rw [hlen] at hi
      rw [g7, if_neg (by omega)]
      rfl
  · intro s p n j e h0 hp hn hfind hget hsec hbtn
    have e1 : navigateTabs 1 s = openTab none "components" s :=
      navigateTabs_next s 0 _ h0 (by decide) rfl
    have i1 : (navigateTabs 1 s).currentTabIndex = 1 := by
      rw [e1, currentTabIndex_openTab]; rfl
    have e2 := navigateTabs_next (navigateTabs 1 s) 1 "questions" i1 (by decide) rfl
    have i2 : (navigateTabs 1 (navigateTabs 1 s)).currentTabIndex = 2 := by
      rw [e2, currentTabIndex_openTab]; rfl
    have e3 := navigateTabs_next (navigateTabs 1 (navigateTabs 1 s)) 2 "tips" i2 (by decide) rfl
    have i3 : (navigateTabs 1 (navigateTabs 1 (navigateTabs 1 s))).currentTabIndex = 3 := by
      rw [e3, currentTabIndex_openTab]; rfl
    have e4 := navigateTabs_next (navigateTabs 1 (navigateTabs 1 (navigateTabs 1 s))) 3
      "examples" i3 (by decide) rfl
    have i4 : (navigateTabs 1 (navigateTabs 1 (navigateTabs 1
        (navigateTabs 1 s)))).currentTabIndex = 4 := by
      rw [e4, currentTabIndex_openTab]; rfl
    have e5 := navigateTabs_next (navigateTabs 1 (navigateTabs 1 (navigateTabs 1
      (navigateTabs 1 s)))) 4 "practice" i4 (by decide) rfl
    have hkey : (navigateTabs 1 (navigateTabs 1 (navigateTabs 1 (navigateTabs 1 s)))).doc.map pageKey
        = s.doc.map pageKey := by
      rw [pageKey_navigateTabs, pageKey_navigateTabs, pageKey_navigateTabs, pageKey_navigateTabs]
    have hiter : (navigateTabs 1)^[5] s
        = navigateTabs 1 (navigateTabs 1 (navigateTabs 1 (navigateTabs 1 (navigateTabs 1 s)))) :=
      rfl
    rw [hiter, e5]
    have hne : ¬ ("practice" = "") := by decide
    have hfind1 : firstIdx (fun e => e.id == "practice") s.doc = some j := by
      unfold getElementById at hfind
      rw [if_neg hne] at hfind
      exact hfind
    obtain ⟨k1, ⟨ek, k2, k3⟩, k4⟩ := section_kept s.doc _ hkey "practice" ("tab-" ++ "practice")
      j e hfind1 hget hsec hbtn
    refine ⟨by rw [currentTabIndex_openTab]; rfl, rfl, rfl, ?_, ?_⟩
    · show secIds (openTab none "practice" _).doc = ["practice"]
      rw [secIds_openTab, if_neg hne]
      exact secIds_selected "practice" _ j ek k1 k2 k3 k4
    · have hp1 := (getElementById_congr _ _ "prevBtn" hkey).trans hp
      have hn1 := (getElementById_congr _ _ "nextBtn" hkey).trans hn
      obtain ⟨_, en, _, _, _, g4, g5, g6, g7⟩ := openTab_buttons none "practice" _ p n hp1 hn1
      exact ⟨en, g4, g5, g6, g7⟩

/-- Witness of `C11_nav_buttons` on the page as first loaded: after opening
`practice` the next button (position 15) is disabled and carries the completion
markup while the previous button (position 14) is enabled, and five steps forward
from `basics` end on `practice`. -/
theorem C11_nav_buttons_witness :
    (∃ ep en,
      (openTab none "practice" samplePage).doc.get? 14 = some ep ∧ ep.id = "prevBtn" ∧
      (openTab none "practice" samplePage).doc.get? 15 = some en ∧ en.id = "nextBtn" ∧
      (ep.disabled = true ↔ 5 = 0) ∧
      (en.disabled = true ↔ 5 = tabOrder.length - 1) ∧
      (en.innerHTML = "<i class=\"fas fa-check\"></i> <span>Complete!</span>"
        ↔ 5 = tabOrder.length - 1) ∧
      (5 ≠ tabOrder.length - 1 →
        en.innerHTML = "<span>Next</span> <i class=\"fas fa-arrow-right\"></i>")) ∧
    ((navigateTabs 1)^[5] samplePage).currentTabIndex = 5 ∧
    (activeSections ((navigateTabs 1)^[5] samplePage)).map (fun e => e.id) = ["practice"] :=
  ⟨C11_nav_buttons.1 samplePage 5 "practice" 14 15 (by decide) (by decide) (by decide),
   (C11_nav_buttons.2 samplePage 14 15 13 (mkElem "practice" ["tab-content"])
      (by decide) (by decide) (by decide) (by decide) (by decide) (by decide) (by decide)).1,
   (C11_nav_buttons.2 samplePage 14 15 13 (mkElem "practice" ["tab-content"])
      (by decide) (by decide) (by decide) (by decide) (by decide) (by decide) (by decide)).2.2.2.1⟩

/-! ## Theorems: debounced save -/

theorem fields_typeInto (k : Nat) (x : String) (s : PracticeState) (j : Nat) :
    (typeInto k x s).fields.get? j
      = if j = k then (s.fields.get? j).map (Field.setValue x) else s.fields.get? j :=
  get?_modifyAt _ k j s.fields

/-- Typing three texts into the textarea at `k` leaves it holding the last one
and every other textarea as it was. -/
theorem fields_typed (k : Nat) (x1 x2 x3 : String) (page : PracticeState) (j : Nat) :
    (typeInto k x3 (typeInto k x2 (typeInto k x1 page))).fields.get? j
      = (page.fields.get? j).map (fun g => if j = k then g.setValue x3 else g) := by
  rw [fields_typeInto, fields_typeInto, fields_typeInto]
  by_cases h : j = k
  · simp only [if_pos h]
    cases page.fields.get? j <;> rfl
  · simp only [if_neg h]
    cases page.fields.get? j <;> rfl

/-- Every textarea of the typed page is one of the page, with the same
attributes. -/
theorem typed_source (k : Nat) (x1 x2 x3 : String) (page : PracticeState) (g : Field)
    (hg : g ∈ (typeInto k x3 (typeInto k x2 (typeInto k x1 page))).fields) :
    ∃ j g0, page.fields.get? j = some g0 ∧ g0.inPractice = g.inPractice ∧
      g0.question = g.question ∧ draftKey g0 = draftKey g ∧ (j = k → g.value = x3) := by
  obtain ⟨j, hj⟩ := List.mem_iff_get?.mp hg
  rw [fields_typed] at hj
  cases h0 : page.fields.get? j with
  | none => rw [h0] at hj; exact absurd hj (by simp)
  | some g0 =>
    rw [h0] at hj
    have e : (if j = k then g0.setValue x3 else g0) = g := Option.some.inj hj
    refine ⟨j, g0, h0, ?_, ?_, ?_, ?_⟩
    · rw [← e]; split <;> rfl
    · rw [← e]; split <;> rfl
    · rw [← e]; split <;> rfl
    · intro hjk
      rw [← e, if_pos hjk]
      rfl

/-- C10 (as stated, refuted): three rapid input events on one field of the
practice section run the listener once and make one persisted write, but the
write does not carry the last value when the question id of the field is
`constructor` (a name every object inherits), nor when the textarea has no
`data-question`: the field holds the last text and the string written is the
empty object. -/
theorem C10_write_misses_last_value :
    (threeInputsOn (mkField "constructor" "situation" "")).invoked = [(800, ())] ∧
    (threeInputsOn (mkField "constructor" "situation" "")).world.fields
      = [mkField "constructor" "situation" "Led the migration"] ∧
    (threeInputsOn (mkField "constructor" "situation" "")).world.storageWrites
      = [("star-practice-drafts", "\x7b\x7d")] ∧
    storedText samplePlatform (threeInputsOn (mkField "constructor" "situation" "")).world
      "constructor" "situation" = none ∧
    (threeInputsOn unkeyedField).invoked = [(800, ())] ∧
    (threeInputsOn unkeyedField).world.fields.map (fun f => f.value) = ["Led the migration"] ∧
    (threeInputsOn unkeyedField).world.storageWrites = [("star-practice-drafts", "\x7b\x7d")] := by
  decide

/-- C10 (amended): a sequence of `n >= 1` calls of the function
`debounce(func, wait)` returns, each after the first arriving before `wait` has
elapsed since the previous one, invokes `func` exactly once, `wait` after the
last call, with the arguments of the last call, on the state as the last call
found it, and leaves no timeout pending.  So three input events on the textarea
at position `k`, each less than 500 ms after the previous one, run the listener
of `initPractice` once, 500 ms after the third, and in a view whose question ids
are own names that run makes exactly one call of `localStorage.setItem`, under
the drafts key; when the textarea is a `#practice textarea[data-question]` with
the ids `(q, s)`, `s` not `__proto__`, and the only one stored under `(q, s)`,
the persisted store then maps `(q, s)` to the last text typed. -/
theorem C10_debounce_collapse :
    (∀ (σ α : Type) (func : α → σ → σ) (wait : Nat) (c : Call σ α) (cs : List (Call σ α))
        (s0 : Loop σ α) (T : Nat),
      s0.pending = [] → s0.invoked = [] → s0.now ≤ c.time → Rapid wait c.time cs →
      (lastCall c cs).time + wait ≤ T →
      (advanceTo func T (runCalls func wait (c :: cs) s0)).invoked
          = [((lastCall c cs).time + wait, (lastCall c cs).args)] ∧
      (advanceTo func T (runCalls func wait (c :: cs) s0)).world
          = func (lastCall c cs).args (editsOf (c :: cs) s0.world) ∧
      (advanceTo func T (runCalls func wait (c :: cs) s0)).pending = []) ∧
    (∀ (P : Platform) (page : PracticeState) (k : Nat) (f : Field) (q sec x1 x2 x3 : String)
        (t0 t1 t2 t3 T : Nat),
      t0 ≤ t1 → t1 ≤ t2 → t2 < t1 + 500 → t2 ≤ t3 → t3 < t2 + 500 → t3 + 500 ≤ T →
      (∀ g ∈ practiceFields page.fields, ownName page.protoExtra (draftKey g).1 = true) →
      page.fields.get? k = some f → f.inPractice = true →
      f.question = some q → f.sectionId = some sec → sec ≠ "__proto__" →
      (∀ j g, page.fields.get? j = some g → g.inPractice = true → g.question.isSome = true →
        draftKey g = (q, sec) → j = k) →
      P.parse (P.stringify (draftsToJs
          (builtDrafts (typeInto k x3 (typeInto k x2 (typeInto k x1 page))))))
        = some (draftsToJs (builtDrafts (typeInto k x3 (typeInto k x2 (typeInto k x1 page))))) →
      (advanceTo (inputHandler P) T (runCalls (inputHandler P) 500
          [inputEvent t1 k x1, inputEvent t2 k x2, inputEvent t3 k x3]
          (freshLoop page t0))).invoked = [(t3 + 500, ())] ∧
      (advanceTo (inputHandler P) T (runCalls (inputHandler P) 500
          [inputEvent t1 k x1, inputEvent t2 k x2, inputEvent t3 k x3]
          (freshLoop page t0))).world.storageWrites
        = page.storageWrites ++ [("star-practice-drafts", P.stringify (draftsToJs
            (builtDrafts (typeInto k x3 (typeInto k x2 (typeInto k x1 page))))))] ∧
      (advanceTo (inputHandler P) T (runCalls (inputHandler P) 500
          [inputEvent t1 k x1, inputEvent t2 k x2, inputEvent t3 k x3]
          (freshLoop page t0))).world.fields.get? k = some (f.setValue x3) ∧
      storedText P (advanceTo (inputHandler P) T (runCalls (inputHandler P) 500
          [inputEvent t1 k x1, inputEvent t2 k x2, inputEvent t3 k x3]
          (freshLoop page t0))).world q sec = some x3) := by
  refine ⟨fun σ α func wait c cs s0 T hp hi hn hr hT =>
    debounce_rapid func wait c cs s0 T hp hi hn hr hT, ?_⟩
  intro P page k f q sec x1 x2 x3 t0 t1 t2 t3 T h01 h12 h12w h23 h23w hT hplain hget hin hq hs
    hsec huniq hrt
  obtain ⟨hinv, hworld, _⟩ := debounce_rapid (inputHandler P) 500 (inputEvent t1 k x1)
    [inputEvent t2 k x2, inputEvent t3 k x3] (freshLoop page t0) T rfl rfl h01
    ⟨h12, h12w, h23, h23w, trivial⟩ hT
  have hw : (advanceTo (inputHandler P) T (runCalls (inputHandler P) 500
      [inputEvent t1 k x1, inputEvent t2 k x2, inputEvent t3 k x3] (freshLoop page t0))).world
      = saveDrafts P (typeInto k x3 (typeInto k x2 (typeInto k x1 page))) := hworld
  have hk : (typeInto k x3 (typeInto k x2 (typeInto k x1 page))).fields.get? k
      = some (f.setValue x3) := by
    rw [fields_typed, hget]
    simp
  have hplain1 : ∀ g ∈ practiceFields (typeInto k x3 (typeInto k x2 (typeInto k x1 page))).fields,
      ownName (typeInto k x3 (typeInto k x2 (typeInto k x1 page))).protoExtra (draftKey g).1
        = true := by
    intro g hg
    obtain ⟨hg1, hg2⟩ := List.mem_filter.mp hg
    obtain ⟨j, g0, hj, e1, e2, e3, _⟩ := typed_source k x1 x2 x3 page g hg1
    rw [← e3]
    apply hplain g0
    refine List.mem_filter.mpr ⟨List.mem_iff_get?.mpr ⟨j, hj⟩, ?_⟩
    rw [e1, e2]
    exact hg2
  have huniq1 : ∀ g ∈ practiceFields (typeInto k x3 (typeInto k x2 (typeInto k x1 page))).fields,
      draftKey g = (q, sec) → g.value = x3 := by
    intro g hg hkey
    obtain ⟨hg1, hg2⟩ := List.mem_filter.mp hg
    obtain ⟨j, g0, hj, e1, e2, e3, e4⟩ := typed_source k x1 x2 x3 page g hg1
    simp only [Bool.and_eq_true] at hg2
    exact e4 (huniq j g0 hj (e1.trans hg2.1) (by rw [e2]; exact hg2.2) (e3.trans hkey))
  have hmem : f.setValue x3
      ∈ practiceFields (typeInto k x3 (typeInto k x2 (typeInto k x1 page))).fields := by
    refine List.mem_filter.mpr ⟨List.mem_iff_get?.mpr ⟨k, hk⟩, ?_⟩
    show (f.inPractice && f.question.isSome) = true
    rw [hin, hq]
    rfl
  have hkey : draftKey (f.setValue x3) = (q, sec) := by
    show ((f.question.getD ""), (f.sectionId.getD "null")) = (q, sec)
    rw [hq, hs]
    rfl
  rw [hw]
  refine ⟨hinv, rfl, hk, ?_⟩
  rw [storedText_saveDrafts P _ q sec hrt, builtDrafts_plain _ hplain1]
  exact draftText_foldl_target _ [] q sec x3 hsec (Or.inl ⟨_, hmem, hkey⟩) huniq1

/-- Witness of `C10_debounce_collapse`: three input events on the field
`q1/situation`, 100 and 200 ms apart, run the listener once, at 800 ms; the one
write stores the last text. -/
theorem C10_debounce_collapse_witness :
    (threeInputsOn (mkField "q1" "situation" "")).invoked = [(800, ())] ∧
    (threeInputsOn (mkField "q1" "situation" "")).world.storageWrites
      = [("star-practice-drafts",
          "\x7b\"q1\":\x7b\"situation\":\"Led the migration\"\x7d\x7d")] ∧
    storedText samplePlatform (threeInputsOn (mkField "q1" "situation" "")).world
      "q1" "situation" = some "Led the migration" := by
  have h := C10_debounce_collapse.2 samplePlatform (mkSession [mkField "q1" "situation" ""] none)
    0 (mkField "q1" "situation" "") "q1" "situation" "Led" "Led the" "Led the migration"
    0 0 100 300 800
    (by decide) (by decide) (by decide) (by decide) (by decide) (by decide)
    (by decide) rfl rfl rfl rfl (by decide)
    (fun j g hj _ _ _ => by
      cases j with
      | zero => rfl
      | succ j => exact absurd hj (by simp [mkSession]))
    (by rfl)
  exact ⟨h.1, h.2.1.trans (by decide), h.2.2.2⟩

end StarFlashcards
